import Mathlib

/-!
Verification development for the compiler-compiler repository
(`src/compiler_generator/lexer_generator.py`,
 `src/compiler_generator/parser_generator.py`,
 `src/utils/smart_suggest.py`, `src/frontend/cli.py`).

Every definition below is a shallow embedding translated from the Python
source.  Python dictionaries are modelled as insertion-ordered association
lists, Python sets of strings as duplicate-free lists (only membership and
cardinality of these sets are ever observed by the source, so the list
order is irrelevant to every observable result; where the source iterates
over a set whose iteration order could matter we note it at the
definition).  Unbounded `while` loops are modelled with an explicit fuel
argument; the fuel chosen at every call site strictly dominates the number
of iterations the Python loop can perform, and exhaustion is an explicit
error value.
-/

set_option maxRecDepth 1000000

namespace CompilerGen

/-- `Token` from `lexer_generator.py` (fields `type, value, line, column`). -/
structure Token where
  type : String
  value : String
  line : Nat
  column : Nat
deriving DecidableEq, Repr

/-! ## Lexer runtime (`lexer_generator.py`)

The built scanner is driven by a DFA.  `DFAState` objects in the source
form an id-indexed graph with a transition dictionary `trans` and an
optional `token_type` on accepting states; we model the whole automaton as
transition and acceptance functions over state ids. -/

/-- The DFA produced by `LexerGenerator.build` (`start_dfa`, per-state
`trans` dictionary and `token_type` of accepting states). -/
structure DFA where
  start : Nat
  trans : Nat → Char → Option Nat
  accept : Nat → Option String

/-- A lexical error as raised by `tokenize`
(`Lexical error at line {line}, column {column}: unexpected character '{ch}'`).
The message text is cosmetic; we keep its three data fields. -/
structure LexError where
  line : Nat
  column : Nat
  ch : Char
deriving DecidableEq, Repr

/-- Python `str.isspace` restricted to the ASCII whitespace characters
(the source language never contains other whitespace). -/
def pyIsSpace (c : Char) : Bool :=
  c = ' ' || c = '\t' || c = '\n' || c = '\r' || c = '\x0b' || c = '\x0c'

/-- `text.find('\n', pos)`: index of the first newline at or after `pos`,
`none` when there is none. -/
def findNl (text : List Char) : Nat → Option Nat
  | pos =>
    if h : pos < text.length then
      if text.get ⟨pos, h⟩ = '\n' then some pos else findNl text (pos + 1)
    else none
termination_by pos => text.length - pos

/-- The inner longest-match loop of `tokenize`: starting in DFA state
`state` at index `cur`, follow transitions while they exist, remembering
the token type and end position of the last accepting state visited
(`last_accept_state` / `last_accept_pos`).  `fuel` bounds the iteration
count; every call site passes `text.length + 1`, which exceeds the number
of iterations (each one advances `cur`). -/
def dfaMatch (d : DFA) (text : List Char) :
    Nat → Nat → Nat → Option String → Nat → Option String × Nat
  | 0, _, _, lastTok, lastPos => (lastTok, lastPos)
  | fuel + 1, state, cur, lastTok, lastPos =>
    match text[cur]? with
    | none => (lastTok, lastPos)
    | some ch =>
      match d.trans state ch with
      | none => (lastTok, lastPos)
      | some s' =>
        match d.accept s' with
        | some t => dfaMatch d text fuel s' (cur + 1) (some t) (cur + 1)
        | none => dfaMatch d text fuel s' (cur + 1) lastTok lastPos

/-- Advance `line`/`column` over an emitted lexeme, as in `tokenize`:
if the lexeme contains a newline, `line += lexeme.count('\n')` and
`column = len(lexeme) - lexeme.rfind('\n')`; otherwise
`column += len(lexeme)`. -/
def pyRFind (l : List Char) (c : Char) : Nat :=
  l.length - 1 - (l.reverse).indexOf c

def advanceLineCol (line column : Nat) (lexeme : List Char) : Nat × Nat :=
  if lexeme.contains '\n' then
    (line + (lexeme.filter (· = '\n')).length, lexeme.length - pyRFind lexeme '\n')
  else (line, column + lexeme.length)

/-- The main `while pos < n` loop of `LexerGenerator.tokenize`.  Returns
the scanned tokens together with the final `line`/`column` (used for the
`EOF` token the caller appends).  `fuel` bounds the iteration count; the
caller passes `text.length + 1`, which exceeds the number of iterations
(each one strictly advances `pos`). -/
def lexLoop (d : DFA) (text : List Char) :
    Nat → Nat → Nat → Nat → Except LexError (List Token × Nat × Nat)
  | 0, _, line, column => .ok ([], line, column)
  | fuel + 1, pos, line, column =>
    match text[pos]? with
    | none => .ok ([], line, column)
    | some c =>
      if pyIsSpace c then
        if c = '\n' then lexLoop d text fuel (pos + 1) (line + 1) 1
        else lexLoop d text fuel (pos + 1) line (column + 1)
      else if text[pos + 1]? = some '/' ∧ c = '/' then
        -- line comment `//…`: jump to the next newline; if there is none,
        -- `break` out of the loop (Python `end == -1`).
        match findNl text pos with
        | none => .ok ([], line, column)
        | some e => lexLoop d text fuel e line column
      else
        match dfaMatch d text (text.length + 1) d.start pos none pos with
        | (none, _) => .error ⟨line, column, c⟩
        | (some tok, p) =>
          let lexeme := (text.drop pos).take (p - pos)
          let lc := advanceLineCol line column lexeme
          match lexLoop d text fuel p lc.1 lc.2 with
          | .error e => .error e
          | .ok (ts, l, c') =>
            .ok (⟨tok, String.mk lexeme, line, column⟩ :: ts, l, c')

/-- `LexerGenerator.tokenize`: run the scanning loop and append the single
`EOF` token carrying the final line/column. -/
def tokenize (d : DFA) (text : List Char) : Except LexError (List Token) :=
  match lexLoop d text (text.length + 1) 0 1 1 with
  | .error e => .error e
  | .ok (ts, line, column) => .ok (ts ++ [⟨"EOF", "", line, column⟩])

/-! ## DFA accepting-state tagging (`nfa_to_dfa.get_dfa_state`) -/

/-- An NFA state as tagged by `LexerGenerator.build`: `is_accept`,
`token_type` and `priority` fields. -/
structure NfaSt where
  is_accept : Bool
  token_type : Option String
  priority : Option Nat
deriving Repr

/-- The accept-selection loop of `get_dfa_state`: over the NFA subset,
keep the `(priority, token_type)` of the accepting state whose priority is
smallest (`best_priority is None or (n.priority is not None and
n.priority < best_priority)`).  The Python loop runs over a `frozenset`;
the fold below runs over a list, and the theorem shows the outcome is the
minimal-priority tag, which does not depend on the order. -/
def acceptStep (best : Option Nat × Option String) (n : NfaSt) :
    Option Nat × Option String :=
  if n.is_accept then
    match best.1 with
    | none => (n.priority, n.token_type)
    | some b =>
      match n.priority with
      | some p => if p < b then (some p, n.token_type) else best
      | none => best
  else best

def dfaAcceptFold (states : List NfaSt) : Option Nat × Option String :=
  states.foldl acceptStep (none, none)

/-- `runDFA d text state cur k`: the DFA state reached after consuming the
`k` characters `text[cur..cur+k)` from `state`, `none` if some transition
is missing or the text is too short.  (Specification device for the
longest-match theorem; the scanner itself is `dfaMatch`.) -/
def runDFA (d : DFA) (text : List Char) : Nat → Nat → Nat → Option Nat
  | state, _, 0 => some state
  | state, cur, k + 1 =>
    match text[cur]? with
    | none => none
    | some ch =>
      match d.trans state ch with
      | none => none
      | some s' => runDFA d text s' (cur + 1) k

/-- `acceptsAt d text pos k t`: the `k`-character prefix of the input
starting at `pos` drives the DFA from its start state into an accepting
state tagged `t`. -/
def acceptsAt (d : DFA) (text : List Char) (pos k : Nat) (t : String) : Prop :=
  ∃ s, runDFA d text d.start pos k = some s ∧ d.accept s = some t

/-! ## Python string ordering helpers

Python compares strings (and lists of strings) lexicographically by code
point; `sorted` is stable.  These orderings are used by
`check_variable_defined` (`sorted(defined_vars)`) and by
`_perform_left_factoring` (`sorted(productions)`). -/

def pyCharsLt : List Char → List Char → Bool
  | [], [] => false
  | [], _ :: _ => true
  | _ :: _, [] => false
  | a :: as, b :: bs =>
    if a.val < b.val then true
    else if b.val < a.val then false
    else pyCharsLt as bs

def pyStrLt (a b : String) : Bool := pyCharsLt a.data b.data

def insertStr (x : String) : List String → List String
  | [] => [x]
  | y :: ys => if pyStrLt y x then y :: insertStr x ys else x :: y :: ys

/-- Python `sorted` on a collection of strings (ascending, stable). -/
def pySorted (l : List String) : List String := l.foldr insertStr []

/-- Python `<` on lists of strings (used by `sorted(productions)`). -/
def pyProdLt : List String → List String → Bool
  | [], [] => false
  | [], _ :: _ => true
  | _ :: _, [] => false
  | a :: as, b :: bs =>
    if pyStrLt a b then true
    else if pyStrLt b a then false
    else pyProdLt as bs

def insertProd (x : List String) : List (List String) → List (List String)
  | [] => [x]
  | y :: ys => if pyProdLt y x then y :: insertProd x ys else x :: y :: ys

/-- Python `sorted` on a list of productions (ascending, stable). -/
def pySortedProds (l : List (List String)) : List (List String) :=
  l.foldr insertProd []

/-! ## `smart_suggest.py` -/

/-- Python `str.lower` (the identifiers involved are ASCII). -/
def pyLower (s : String) : String := String.mk (s.data.map Char.toLower)

/-- One cell row of the `levenshtein_distance` dynamic program: walk the
second string, carrying the cell to the left (`current_row[j]`) and
consuming `previous_row` (whose head is `previous_row[j]`, its tail's
head `previous_row[j + 1]`).  `insertions = previous_row[j+1] + 1`,
`deletions = current_row[j] + 1`,
`substitutions = previous_row[j] + (c1 != c2)`. -/
def levCells (c1 : Char) : List Char → List Nat → Nat → List Nat
  | [], _, _ => []
  | c2 :: rest, prev, left =>
    let insertions := (prev.tail.headD 0) + 1
    let deletions := left + 1
    let substitutions := (prev.headD 0) + (if c1 = c2 then 0 else 1)
    let cell := min insertions (min deletions substitutions)
    cell :: levCells c1 rest prev.tail cell

/-- The outer `for i, c1 in enumerate(s1)` loop: `current_row = [i + 1]`
followed by the inner loop, then `previous_row = current_row`. -/
def levLoop (s2 : List Char) : List Char → Nat → List Nat → List Nat
  | [], _, prev => prev
  | c1 :: rest, i, prev =>
    levLoop s2 rest (i + 1) ((i + 1) :: levCells c1 s2 prev (i + 1))

/-- `levenshtein_distance` after the initial argument swap:
`if len(s2) == 0: return len(s1)`, otherwise run the two-row dynamic
program starting from `previous_row = range(len(s2) + 1)` and return
`previous_row[-1]`. -/
def levCore (s1 s2 : List Char) : Nat :=
  if s2.length = 0 then s1.length
  else ((levLoop s2 s1 0 (List.range (s2.length + 1))).getLast?).getD 0

/-- `levenshtein_distance(s1, s2)`: swap so the first argument is the
longer one, then run the dynamic program. -/
def levenshtein_distance (s1 s2 : String) : Nat :=
  if s1.length < s2.length then levCore s2.data s1.data
  else levCore s1.data s2.data

def insertByDist (x : String × Nat) : List (String × Nat) → List (String × Nat)
  | [] => [x]
  | y :: ys => if x.2 ≤ y.2 then x :: y :: ys else y :: insertByDist x ys

/-- Python's stable `suggestions.sort(key=lambda x: x[1])`. -/
def sortByDist : List (String × Nat) → List (String × Nat)
  | [] => []
  | x :: xs => insertByDist x (sortByDist xs)

/-- `find_similar_variables`: pair each declared name within edit distance
`max_distance` (case-insensitively) with its distance, sorted by distance.
The Python `defined_vars` argument is a set; we take the list of names
(the result is membership- and minimality-equivalent for any order). -/
def find_similar_variables (undefinedVar : String) (definedVars : List String)
    (maxDistance : Nat) : List (String × Nat) :=
  sortByDist (definedVars.filterMap (fun v =>
    let d := levenshtein_distance (pyLower undefinedVar) (pyLower v)
    if d ≤ maxDistance then some (v, d) else none))

/-- `suggest_variable_fix`: the closest declared name, when one is within
distance 2. -/
def suggest_variable_fix (undefinedVar : String) (definedVars : List String) :
    Option String :=
  match find_similar_variables undefinedVar definedVars 2 with
  | [] => none
  | (v, _) :: _ => some v

/-! ## Grammar analysis (`parser_generator.py`, class `ParserGenerator`)

Terminal symbols carry surrounding apostrophes in the grammar
(`"\x27ID\x27"` is the terminal for token type `ID`).  `self.grammar` is a
Python dict `nonterminal -> list of productions`; we model it as an
insertion-ordered association list (Python dicts preserve insertion
order).  Sets of terminal names are duplicate-free lists; the source only
observes membership and cardinality of these sets, so the order the list
imposes is irrelevant to every observable result. -/

abbrev Production := List String
abbrev Grammar := List (String × List Production)
abbrev TermSet := List String
abbrev SMap := List (String × TermSet)

def gget (g : Grammar) (a : String) : List Production :=
  (((g.find? (fun p => p.1 == a)).map (fun p => p.2)).getD [])

def gcontains (g : Grammar) (a : String) : Bool := g.any (fun p => p.1 == a)

/-- Python dict assignment: overwrite in place, or append a new key. -/
def gset (g : Grammar) (a : String) (ps : List Production) : Grammar :=
  if gcontains g a then g.map (fun p => if p.1 == a then (a, ps) else p)
  else g ++ [(a, ps)]

def gkeys (g : Grammar) : List String := g.map (fun p => p.1)

def tsInsert (s : TermSet) (x : String) : TermSet :=
  if s.contains x then s else s ++ [x]

def tsUnion (s t : TermSet) : TermSet := t.foldl tsInsert s

def tsRemove (s : TermSet) (x : String) : TermSet := s.filter (fun y => y != x)

def tsInter (s t : TermSet) : TermSet := s.filter (fun x => t.contains x)

def mget (m : SMap) (a : String) : TermSet :=
  (((m.find? (fun p => p.1 == a)).map (fun p => p.2)).getD [])

def mset (m : SMap) (a : String) (s : TermSet) : SMap :=
  if m.any (fun p => p.1 == a) then m.map (fun p => if p.1 == a then (a, s) else p)
  else m ++ [(a, s)]

/-- Kernel-computable counterparts of the string primitives
(`String.startsWith` and friends are opaque to kernel reduction). -/
def strStartsWith (s pre : String) : Bool := pre.data.isPrefixOf s.data

def strEndsWith (s suf : String) : Bool :=
  suf.data.reverse.isPrefixOf s.data.reverse

def strDropBoth (s : String) : String :=
  String.mk ((s.data.drop 1).dropLast)

def strIsEmpty (s : String) : Bool := s.data.isEmpty

/-- `symbol.startswith("'") and symbol.endswith("'")`. -/
def isQuoted (sym : String) : Bool := strStartsWith sym "\x27" && strEndsWith sym "\x27"

/-- `Y[1:-1] if Y.startswith("'") else Y`. -/
def stripQuote (sym : String) : String :=
  if strStartsWith sym "\x27" then strDropBoth sym else sym

/-- `_is_terminal`: quoted symbols, or members of the computed terminal
set. -/
def is_terminal (terminals : TermSet) (sym : String) : Bool :=
  isQuoted sym || terminals.contains sym

/-- `_identify_symbols`: nonterminals are the grammar keys; terminals the
stripped quoted symbols of all productions plus `EOF`. -/
def identify_symbols (g : Grammar) : List String × TermSet :=
  let allSyms := g.foldl (fun acc p =>
    p.2.foldl (fun acc2 production => production.foldl tsInsert acc2) acc) []
  let terms := allSyms.foldl (fun acc s =>
    if isQuoted s then tsInsert acc (stripQuote s) else acc) []
  (gkeys g, tsInsert terms "EOF")

/-- Body of `_get_first_set_for_sequence`, with the accumulated set. -/
def firstSeqAux (terminals : TermSet) (first : SMap) :
    TermSet → List String → TermSet
  | acc, [] => tsInsert acc "EPSILON"
  | acc, y :: rest =>
    if is_terminal terminals y then tsInsert acc (stripQuote y)
    else
      let fy := mget first y
      let acc' := tsUnion acc (tsRemove fy "EPSILON")
      if fy.contains "EPSILON" then firstSeqAux terminals first acc' rest
      else acc'

/-- `_get_first_set_for_sequence`. -/
def first_for_sequence (terminals : TermSet) (first : SMap)
    (seq : List String) : TermSet :=
  firstSeqAux terminals first [] seq

/-- `_sequence_can_derive_epsilon`. -/
def seq_can_derive_epsilon (terminals : TermSet) (first : SMap) :
    List String → Bool
  | [] => true
  | y :: rest =>
    if is_terminal terminals y then false
    else if (mget first y).contains "EPSILON" then
      seq_can_derive_epsilon terminals first rest
    else false

/-- The inner symbol walk of `_compute_first_sets` for one production:
returns the grown `FIRST[X]` and whether every symbol could derive ε
(`can_all_derive_epsilon`). -/
def firstProdStep (terminals : TermSet) (first : SMap) :
    TermSet → List String → TermSet × Bool
  | fx, [] => (fx, true)
  | fx, y :: rest =>
    if is_terminal terminals y then (tsInsert fx (stripQuote y), false)
    else
      let fy := mget first y
      let fx' := tsUnion fx (tsRemove fy "EPSILON")
      if fy.contains "EPSILON" then firstProdStep terminals first fx' rest
      else (fx', false)

/-- One full pass of the `while changed` loop of `_compute_first_sets`
(the `or not production` disjunct of the source is subsumed: the walk
returns `can_all = true` on the empty production). -/
def firstPass (terminals : TermSet) (nts : List String) (g : Grammar)
    (first0 : SMap) : SMap × Bool :=
  nts.foldl (fun acc X =>
    (gget g X).foldl (fun acc2 production =>
      let first := acc2.1
      let fx := mget first X
      let step := firstProdStep terminals first fx production
      let fx' := if step.2 then tsInsert step.1 "EPSILON" else step.1
      (mset first X fx', acc2.2 || (fx'.length != fx.length))) acc)
    (first0, false)

/-- `_compute_first_sets`: iterate passes to the fixpoint.  The returned
flag is `true` when a pass with no change was reached (the Python loop
always reaches it since the sets only grow inside a finite universe); the
caller supplies fuel exceeding the possible number of growing passes. -/
def compute_first_sets (terminals : TermSet) (nts : List String)
    (g : Grammar) : Nat → SMap → SMap × Bool
  | 0, first => (first, false)
  | fuel + 1, first =>
    let pass := firstPass terminals nts g first
    if pass.2 then compute_first_sets terminals nts g fuel pass.1
    else (pass.1, true)

/-- The per-production body of `_compute_follow_sets`: walk the suffixes
`B :: beta` of the production of `A`, updating `FOLLOW[B]` in place. -/
def followProdWalk (nts : List String) (terminals : TermSet) (first : SMap)
    (A : String) : List String → SMap × Bool → SMap × Bool
  | [], acc => acc
  | B :: beta, acc =>
    let follow := acc.1
    if nts.contains B then
      let fb := mget follow B
      let fb' :=
        if ¬ beta.isEmpty then
          let firstBeta := first_for_sequence terminals first beta
          let tmp := tsUnion fb (tsRemove firstBeta "EPSILON")
          if seq_can_derive_epsilon terminals first beta then
            tsUnion tmp (mget follow A)
          else tmp
        else tsUnion fb (mget follow A)
      followProdWalk nts terminals first A beta
        (mset follow B fb', acc.2 || (fb'.length != fb.length))
    else followProdWalk nts terminals first A beta acc

/-- One full pass of the `while changed` loop of `_compute_follow_sets`. -/
def followPass (nts : List String) (terminals : TermSet) (first : SMap)
    (g : Grammar) (follow0 : SMap) : SMap × Bool :=
  nts.foldl (fun acc A =>
    (gget g A).foldl (fun acc2 production =>
      followProdWalk nts terminals first A production acc2) acc)
    (follow0, false)

/-- `_compute_follow_sets` fixpoint loop (seeding is done by the caller). -/
def compute_follow_sets (nts : List String) (terminals : TermSet)
    (first : SMap) (g : Grammar) : Nat → SMap → SMap × Bool
  | 0, follow => (follow, false)
  | fuel + 1, follow =>
    let pass := followPass nts terminals first g follow
    if pass.2 then compute_follow_sets nts terminals first g fuel pass.1
    else (pass.1, true)

/-- `_compute_select_set`. -/
def compute_select_set (terminals : TermSet) (first follow : SMap)
    (nonTerminal : String) (production : Production) : TermSet :=
  let firstAlpha := first_for_sequence terminals first production
  if ¬ firstAlpha.contains "EPSILON" then firstAlpha
  else tsUnion (tsRemove firstAlpha "EPSILON") (mget follow nonTerminal)

/-- `_precompute_select_sets`: one list of SELECT sets per nonterminal,
aligned with its production list. -/
def precompute_select_sets (g : Grammar) (nts : List String)
    (terminals : TermSet) (first follow : SMap) :
    List (String × List TermSet) :=
  nts.map (fun A => (A, (gget g A).map (compute_select_set terminals first follow A)))

/-- `_check_potential_indirect_recursion`: can `start_sym` reach
`target_sym` through first symbols of productions?  The Python `visited`
set is shared across sibling branches (a memoised DFS); passing it down
each branch separately computes the same reachability relation, and the
fuel (`number of nonterminals + 1` at every call site) dominates the
recursion depth because `visited` grows along every path. -/
def check_potential_indirect (g : Grammar) (nts : List String) :
    Nat → String → String → List String → Bool
  | 0, _, _, _ => false
  | fuel + 1, startSym, targetSym, visited =>
    if startSym == targetSym then true
    else if visited.contains startSym then false
    else
      (gget g startSym).any (fun prod =>
        match prod with
        | [] => false
        | firstSymbol :: _ =>
          if nts.contains firstSymbol then
            check_potential_indirect g nts fuel firstSymbol targetSym
              (startSym :: visited)
          else false)

/-- `_eliminate_immediate_left_recursion`. -/
def eliminate_immediate_left_recursion (g : Grammar) (nts : List String)
    (A : String) : Grammar × List String :=
  let productions := gget g A
  let alphas := productions.filterMap (fun p =>
    match p with
    | x :: rest => if x == A then some rest else none
    | [] => none)
  let betas := productions.filter (fun p =>
    match p with
    | x :: _ => x != A
    | [] => true)
  if alphas.isEmpty then (g, nts)
  else
    let aTail := A ++ "_TAIL"
    let tailProds := alphas.map (fun alpha => alpha ++ [aTail]) ++ [[]]
    let g1 := gset g aTail tailProds
    let nts1 := if nts.contains aTail then nts else nts ++ [aTail]
    (gset g1 A (betas.map (fun beta => beta ++ [aTail])), nts1)

/-- The `j < i` substitution step of `_eliminate_left_recursion`: when
`Aj` can left-reach `Ai`, replace every `Ai -> Aj γ` by the expansions
`β γ` over the productions `β` of `Aj`, keeping the other productions in
order and appending the expansions. -/
def eliminate_step_j (g : Grammar) (nts : List String) (Ai Aj : String) :
    Grammar :=
  if ¬ check_potential_indirect g nts (nts.length + 1) Aj Ai [] then g
  else
    let current := gget g Ai
    let res := current.foldl (fun (acc : List Production × List Production) production =>
      match production with
      | x :: gamma =>
        if x == Aj then (acc.1, acc.2 ++ (gget g Aj).map (fun beta => beta ++ gamma))
        else (acc.1 ++ [production], acc.2)
      | [] => (acc.1 ++ [production], acc.2)) ([], [])
    gset g Ai (res.1 ++ res.2)

/-- `_eliminate_left_recursion` (without its trailing
`_identify_symbols`, which the caller performs): Paull ordering over the
`sorted` nonterminal list, substitution guarded by the reachability check,
then immediate elimination. -/
def eliminate_left_recursion (g0 : Grammar) (nts0 : List String) :
    Grammar × List String :=
  let sortedNts := pySorted nts0
  (List.range sortedNts.length).foldl (fun acc i =>
    let Ai := sortedNts.getD i ""
    let g1 := (List.range i).foldl (fun gacc j =>
      eliminate_step_j gacc acc.2 Ai (sortedNts.getD j "")) acc.1
    eliminate_immediate_left_recursion g1 acc.2 Ai) (g0, nts0)

/-- Pairwise longest common prefix (the position scan of the factoring
group loop). -/
def commonPref2 : Production → Production → Production
  | a :: as, b :: bs => if a == b then a :: commonPref2 as bs else []
  | _, _ => []

/-- Longest common prefix of a whole group. -/
def lcpGroup : List Production → Production
  | [] => []
  | p :: rest => rest.foldl commonPref2 p

/-- Two productions open the same factoring group iff both are nonempty
with equal head (the source computes their common prefix against the
group head and additionally re-checks the head symbols). -/
def headsMatch (p q : Production) : Bool :=
  match p, q with
  | a :: _, b :: _ => a == b
  | _, _ => false

def groupsAux (p : Production) (cur : List Production) :
    List Production → List (List Production)
  | [] => [cur.reverse]
  | q :: rest =>
    if headsMatch p q then groupsAux p (q :: cur) rest
    else cur.reverse :: groupsAux q [q] rest

/-- The grouping scan of `_perform_left_factoring` over the sorted
production list: maximal runs of consecutive productions sharing their
head symbol with the run's first production. -/
def makeGroups : List Production → List (List Production)
  | [] => []
  | p :: rest => groupsAux p [p] rest

/-- Process one nonterminal in `_perform_left_factoring`: returns the new
production list for `A`, the new tail entries (in creation order), the new
global counter, and the nonterminals to add to the worklist. -/
def factorOne (A : String) (counter0 : Nat) (productions : List Production) :
    List Production × List (String × List Production) × Nat × List String :=
  let sortedProds := pySortedProds productions
  let groups := makeGroups sortedProds
  groups.foldl (fun acc group =>
    let (newProds, entries, counter, work) := acc
    if group.length < 2 then (newProds ++ group, entries, counter, work)
    else
      let alpha := lcpGroup group
      if alpha.isEmpty then (newProds ++ group, entries, counter, work)
      else
        let newNT := A ++ "_LF_TAIL_" ++ toString counter
        let tails := group.map (fun p => p.drop alpha.length)
        let work' := if tails.length > 1 then work ++ [newNT] else work
        (newProds ++ [alpha ++ [newNT]], entries ++ [(newNT, tails)],
          counter + 1, work'))
    ([], [], counter0, [])

/-- The `while non_terminals_to_check and max_iterations > 0` loop.  The
Python worklist is a set with unspecified pop order; we pop from the front
of a duplicate-free list seeded with the key list.  (For every grammar
evaluated concretely below, the processing of distinct nonterminals is
independent, so the result does not depend on the pop order.) -/
def factorLoop : Nat → Grammar → List String → Nat → Grammar
  | 0, g, _, _ => g
  | _ + 1, g, [], _ => g
  | maxIter + 1, g, A :: rest, counter =>
    let productions := gget g A
    if productions.isEmpty then factorLoop maxIter g rest counter
    else
      let (newProds, entries, counter', work) := factorOne A counter productions
      let g1 := entries.foldl (fun gg e => gset gg e.1 e.2) g
      let g2 := gset g1 A newProds
      let rest' := work.foldl (fun w nt => if w.contains nt then w else w ++ [nt]) rest
      factorLoop maxIter g2 rest' counter'

/-- `_perform_left_factoring` (without its trailing `_identify_symbols`):
`max_iterations = len(self.grammar) * 2`, counter starts at 0. -/
def perform_left_factoring (g : Grammar) : Grammar :=
  factorLoop (g.length * 2) g (gkeys g) 0

/-- The diagnostic payload of the `ParseError` raised by
`_check_ll1_conflicts` (message formatting is cosmetic; the data is the
nonterminal, the two offending productions and the SELECT intersection). -/
structure LL1Conflict where
  nt : String
  prodI : Production
  prodJ : Production
  conflict : TermSet
deriving DecidableEq, Repr

/-- `self.select_sets[A]` (empty when absent). -/
def sel_lookup (selects : List (String × List TermSet)) (A : String) :
    List TermSet :=
  (((selects.find? (fun p => p.1 == A)).map (fun p => p.2)).getD [])

/-- Inner `j` loop of the conflict scan: first `j > i` whose SELECT set
meets `si`, as an offset into the remaining list. -/
def findConflictInner (si : TermSet) : List TermSet → Option (Nat × TermSet)
  | [] => none
  | sj :: rest =>
    let inter := tsInter si sj
    if inter.isEmpty then
      match findConflictInner si rest with
      | none => none
      | some (j, c) => some (j + 1, c)
    else some (0, inter)

/-- Outer `i` loop of the conflict scan: first conflicting pair `(i, j)`,
`i < j`, in scan order. -/
def findConflictOuter : List TermSet → Option (Nat × Nat × TermSet)
  | [] => none
  | si :: rest =>
    match findConflictInner si rest with
    | some (j, c) => some (0, j + 1, c)
    | none =>
      match findConflictOuter rest with
      | some (i, j, c) => some (i + 1, j + 1, c)
      | none => none

/-- `_check_ll1_conflicts`: scan the nonterminals (the Python iteration
order over the `non_terminals` set is unspecified; whether a conflict
exists does not depend on it), skipping those with at most one
production; raise on the first intersecting SELECT pair. -/
def check_ll1_conflicts (g : Grammar)
    (selects : List (String × List TermSet)) : List String → Option LL1Conflict
  | [] => none
  | A :: rest =>
    let productions := gget g A
    if productions.length ≤ 1 then check_ll1_conflicts g selects rest
    else
      let sels := sel_lookup selects A
      match findConflictOuter sels with
      | some (i, j, c) =>
        some ⟨A, productions.getD i [], productions.getD j [], c⟩
      | none => check_ll1_conflicts g selects rest

/-- Failure modes of `build_analysis_sets`: the `ParseError` of the LL(1)
check, or fixpoint fuel exhaustion (unreachable for the fuel chosen
below, since each non-final pass adds at least one element inside a finite
universe). -/
inductive BuildError where
  | conflict (c : LL1Conflict)
  | fuelExhausted
deriving DecidableEq, Repr

/-- The analysis data `build_analysis_sets` leaves on the parser object. -/
structure PGen where
  grammar : Grammar
  start_symbol : String
  non_terminals : List String
  terminals : TermSet
  first_sets : SMap
  follow_sets : SMap
  select_sets : List (String × List TermSet)
deriving Repr

/-- `build_analysis_sets`: identify symbols, eliminate left recursion,
left-factor, compute FIRST/FOLLOW/SELECT, check LL(1) conflicts.  On a
conflict no parser state is produced (`analysis_sets_built` is never
set). -/
def build_analysis_sets (g0 : Grammar) (start : String) :
    Except BuildError PGen :=
  let idsA := identify_symbols g0
  let elim := eliminate_left_recursion g0 idsA.1
  let _idsB := identify_symbols elim.1
  let g2 := perform_left_factoring elim.1
  let ids := identify_symbols g2
  let nts := ids.1
  let terms := ids.2
  let fuel := nts.length * (terms.length + 2) + 1
  let firstInit : SMap := nts.map (fun nt => (nt, []))
  match compute_first_sets terms nts g2 fuel firstInit with
  | (_, false) => .error .fuelExhausted
  | (first, true) =>
    let followInit : SMap := nts.map (fun nt => (nt, []))
    let followSeeded :=
      if strIsEmpty start then followInit
      else mset followInit start (tsInsert (mget followInit start) "EOF")
    match compute_follow_sets nts terms first g2 fuel followSeeded with
    | (_, false) => .error .fuelExhausted
    | (follow, true) =>
      let selects := precompute_select_sets g2 nts terms first follow
      match check_ll1_conflicts g2 selects nts with
      | some c => .error (.conflict c)
      | none => .ok ⟨g2, start, nts, terms, first, follow, selects⟩

/-! ## Predictive parser with syntax-directed translation
(`parser_generator.py`, runtime part of `ParserGenerator`)

The Python object mixes configuration attributes (`enable_sdt`,
`enable_variable_check`, `requires_explicit_declaration`, the grammar and
analysis sets) with per-compile mutable state (`tokens`, `pos`,
`code_buffer`, `temp_counter`, `label_counter`, `symbol_table`,
`semantic_errors`).  We split them: `ParseEnv`/`PConf` hold what no parse
run mutates, `PState` the mutable part that `reset_code_generation` and
`parse` overwrite.  The symbol table dict is modelled by its key list
(all stored values are the constant `{'type': 'var'}`). -/

/-- A recorded semantic error (`check_variable_defined` appends one
formatted string; we keep its data: position, the offending name, the
suggestion if any, and the sorted declared names listed when there is no
suggestion). -/
structure SemErr where
  line : Nat
  column : Nat
  name : String
  suggestion : Option String
  listed : List String
deriving DecidableEq, Repr

structure PState where
  tokens : List Token
  pos : Nat
  code_buffer : List String
  temp_counter : Nat
  label_counter : Nat
  symbol_table : List String
  semantic_errors : List SemErr
deriving Repr

structure PConf where
  enable_sdt : Bool
  enable_variable_check : Bool
  requires_explicit_declaration : Bool
deriving Repr

/-- The fresh state a parser object starts from. -/
def initPState : PState := ⟨[], 0, [], 0, 0, [], []⟩

/-- `reset_code_generation`. -/
def reset_code_generation (st : PState) : PState :=
  { st with code_buffer := [], temp_counter := 0, label_counter := 0,
            symbol_table := [], semantic_errors := [] }

/-- `new_temp`. -/
def new_temp (st : PState) : String × PState :=
  let n := st.temp_counter + 1
  ("t" ++ toString n, { st with temp_counter := n })

/-- `new_label`. -/
def new_label (st : PState) : String × PState :=
  let n := st.label_counter + 1
  ("L" ++ toString n, { st with label_counter := n })

/-- `emit`. -/
def emit (conf : PConf) (st : PState) (code : String) : PState :=
  if conf.enable_sdt then { st with code_buffer := st.code_buffer ++ [code] }
  else st

/-- `get_generated_code`. -/
def get_generated_code (st : PState) : String :=
  String.intercalate "\n" st.code_buffer

/-- `self.symbol_table[var_name] = {'type': 'var'}`. -/
def symInsert (st : PState) (v : String) : PState :=
  if st.symbol_table.contains v then st
  else { st with symbol_table := st.symbol_table ++ [v] }

/-- `check_variable_defined`: true when defined; otherwise append one
semantic error carrying the suggestion (or, failing one, the sorted list
of all declared names). -/
def check_variable_defined (conf : PConf) (st : PState) (varName : String)
    (token : Option Token) : PState × Bool :=
  if ¬ conf.enable_variable_check then (st, true)
  else if st.symbol_table.contains varName then (st, true)
  else
    let line := match token with | some t => t.line | none => 0
    let column := match token with | some t => t.column | none => 0
    let definedVars := st.symbol_table
    let suggestion := suggest_variable_fix varName definedVars
    let listed := match suggestion with
      | some _ => []
      | none => if definedVars.isEmpty then [] else pySorted definedVars
    ({ st with semantic_errors :=
        st.semantic_errors ++ [⟨line, column, varName, suggestion, listed⟩] },
      false)

/-- AST node (`name`, `children`, `token`, `synthesized_value`). -/
inductive ASTNode where
  | node (name : String) (children : List ASTNode) (token : Option Token)
      (synthesized_value : Option String)
deriving Repr

def ASTNode.name : ASTNode → String
  | .node n _ _ _ => n

def ASTNode.children : ASTNode → List ASTNode
  | .node _ c _ _ => c

def ASTNode.token : ASTNode → Option Token
  | .node _ _ t _ => t

def ASTNode.synth : ASTNode → Option String
  | .node _ _ _ s => s

instance : Inhabited ASTNode := ⟨.node "" [] none none⟩

/-- Python truthiness of a synthesized value (`if val:` is false for both
`None` and the empty string). -/
def truthy : Option String → Bool
  | some s => ¬ strIsEmpty s
  | none => false

/-- Python f-string rendering of a possibly-`None` value. -/
def pyStr : Option String → String
  | some s => s
  | none => "None"

/-- The exclusion list the translation helpers test operator token types
against. -/
def excluded_op_types : List String :=
  ["ID", "NUM", "LPAREN", "RPAREN", "SEMI", "ASSIGN", "COMMA", "LBRACE",
   "RBRACE", "BEGIN", "END", "VAR", "CONST", "PROCEDURE", "CALL", "IF",
   "WHILE", "READ", "WRITE", "PRINT"]

/-- The shorter exclusion list of the single-terminal pass-through branch
of `_apply_translation_scheme`. -/
def excluded_token_types : List String :=
  ["ID", "NUM", "LPAREN", "RPAREN", "SEMI", "ASSIGN", "COMMA", "LBRACE",
   "RBRACE", "BEGIN", "END", "VAR", "CONST", "PROCEDURE", "CALL"]

/-- `_is_binary_operator_by_structure`. -/
def is_binary_operator_by_structure (production : List String)
    (opIndex : Nat) : Bool :=
  if opIndex ≥ production.length then false
  else if 0 < opIndex ∧ opIndex < production.length - 1 then
    let left := production.getD (opIndex - 1) ""
    let op := production.getD opIndex ""
    let right := production.getD (opIndex + 1) ""
    (¬ strStartsWith left "\x27") && strStartsWith op "\x27" && (¬ strStartsWith right "\x27")
  else false

/-- `_is_keyword_by_structure`. -/
def is_keyword_by_structure (production : List String)
    (keywordIndex : Nat) : Bool :=
  if keywordIndex ≥ production.length then false
  else
    keywordIndex == 0 && production.length ≥ 4 &&
    strStartsWith (production.getD 0 "") "\x27" &&
    production.getD 1 "" == "\x27LPAREN\x27" &&
    (¬ strStartsWith (production.getD 2 "") "\x27") &&
    production.getD 3 "" == "\x27RPAREN\x27"

/-- Body of `_process_add_op`, with the recursive call abstracted as
`rec` (the recursion is tied by `process_add_op` below). -/
def process_add_op_go (conf : PConf)
    (rec : ASTNode → Option String → PState → Option String × PState)
    (addOpNode : ASTNode) (leftVal : Option String) (st : PState) :
    Option String × PState :=
  if addOpNode.children.isEmpty then (leftVal, st)
  else
    let children := addOpNode.children
    if children.length ≥ 2 then
      match (children.getD 0 default).token with
      | some tk =>
        if ¬ excluded_op_types.contains tk.type then
          if tk.type = "PLUS" ∨ tk.type = "MINUS" then
            let op := (children.getD 0 default).synth
            let rightVal := (children.getD 1 default).synth
            if truthy op ∧ truthy rightVal then
              let tmp := new_temp st
              let st2 := emit conf tmp.2
                (tmp.1 ++ " = " ++ pyStr leftVal ++ " " ++ pyStr op ++ " " ++ pyStr rightVal)
              if children.length > 2 then
                let tail := children.getD 2 default
                if tail.children.length = 1 then
                  let tailChild := tail.children.getD 0 default
                  if tailChild.children.length ≥ 2 then
                    match (tailChild.children.getD 0 default).token with
                    | some ttk =>
                      if ttk.type = "PLUS" ∨ ttk.type = "MINUS" then
                        rec tailChild (some tmp.1) st2
                      else (some tmp.1, st2)
                    | none => (some tmp.1, st2)
                  else (some tmp.1, st2)
                else (some tmp.1, st2)
              else (some tmp.1, st2)
            else (leftVal, st)
          else (leftVal, st)
        else (leftVal, st)
      | none => (leftVal, st)
    else (leftVal, st)

/-- `_process_add_op`: fold one `AddOp` group node; the fuel bounds the
recursion depth (dominated by the parse fuel at every call site). -/
def process_add_op (conf : PConf) : Nat → ASTNode → Option String → PState →
    Option String × PState
  | 0, _, leftVal, st => (leftVal, st)
  | fuel + 1, addOpNode, leftVal, st =>
    process_add_op_go conf (process_add_op conf fuel) addOpNode leftVal st

/-- Body of `_process_mul_op`, recursion abstracted as `rec`. -/
def process_mul_op_go (conf : PConf)
    (rec : ASTNode → Option String → PState → Option String × PState)
    (mulOpNode : ASTNode) (leftVal : Option String) (st : PState) :
    Option String × PState :=
  if mulOpNode.children.isEmpty then (leftVal, st)
  else
    let children := mulOpNode.children
    if children.length ≥ 2 then
      match (children.getD 0 default).token with
      | some tk =>
        if ¬ excluded_op_types.contains tk.type then
          if tk.type = "MUL" ∨ tk.type = "DIV" then
            let op := (children.getD 0 default).synth
            let rightVal := (children.getD 1 default).synth
            if truthy op ∧ truthy rightVal then
              let tmp := new_temp st
              let st2 := emit conf tmp.2
                (tmp.1 ++ " = " ++ pyStr leftVal ++ " " ++ pyStr op ++ " " ++ pyStr rightVal)
              if children.length > 2 then
                let tail := children.getD 2 default
                if tail.children.length = 1 then
                  let tailChild := tail.children.getD 0 default
                  if tailChild.children.length ≥ 2 then
                    match (tailChild.children.getD 0 default).token with
                    | some ttk =>
                      if ttk.type = "MUL" ∨ ttk.type = "DIV" then
                        rec tailChild (some tmp.1) st2
                      else (some tmp.1, st2)
                    | none => (some tmp.1, st2)
                  else (some tmp.1, st2)
                else (some tmp.1, st2)
              else (some tmp.1, st2)
            else (leftVal, st)
          else (leftVal, st)
        else (leftVal, st)
      | none => (leftVal, st)
    else (leftVal, st)

/-- `_process_mul_op`. -/
def process_mul_op (conf : PConf) : Nat → ASTNode → Option String → PState →
    Option String × PState
  | 0, _, leftVal, st => (leftVal, st)
  | fuel + 1, mulOpNode, leftVal, st =>
    process_mul_op_go conf (process_mul_op conf fuel) mulOpNode leftVal st

/-- `_process_expr_tail`: format 1 (a single operator-group child)
delegates to `_process_add_op`; otherwise format 2 handles the flat
`'PLUS'/'MINUS' Term ExprTail` shape directly; if neither applies the
left value passes through. -/
def process_expr_tail_go (conf : PConf)
    (recAdd recSelf : ASTNode → Option String → PState → Option String × PState)
    (tailNode : ASTNode) (leftVal : Option String) (st : PState) :
    Option String × PState :=
  if tailNode.children.isEmpty then (leftVal, st)
  else
    let children := tailNode.children
    let fmt1 : Bool :=
      if children.length = 1 ∧ ¬ (children.getD 0 default).children.isEmpty then
        if (children.getD 0 default).children.length ≥ 2 then
          match ((children.getD 0 default).children.getD 0 default).token with
          | some tk =>
            (¬ excluded_op_types.contains tk.type) &&
              (tk.type == "PLUS" || tk.type == "MINUS")
          | none => false
        else false
      else false
    if fmt1 then recAdd (children.getD 0 default) leftVal st
    else
      if (¬ children.isEmpty) ∧ (children.getD 0 default).token.isSome ∧
          children.length ≥ 2 then
        match (children.getD 0 default).token with
        | some tk =>
          if ¬ excluded_op_types.contains tk.type then
            if tk.type = "PLUS" ∨ tk.type = "MINUS" then
              let op := (children.getD 0 default).synth
              let rightVal := (children.getD 1 default).synth
              if truthy op ∧ truthy rightVal then
                let tmp := new_temp st
                let st2 := emit conf tmp.2
                  (tmp.1 ++ " = " ++ pyStr leftVal ++ " " ++ pyStr op ++ " " ++ pyStr rightVal)
                if children.length > 2 ∧ ¬ (children.getD 2 default).children.isEmpty then
                  recSelf (children.getD 2 default) (some tmp.1) st2
                else (some tmp.1, st2)
              else (leftVal, st)
            else (leftVal, st)
          else (leftVal, st)
        | none => (leftVal, st)
      else (leftVal, st)

/-- `_process_expr_tail` proper, tying both recursions at the same fuel
as the source (format 1 delegates to `_process_add_op`). -/
def process_expr_tail (conf : PConf) : Nat → ASTNode → Option String →
    PState → Option String × PState
  | 0, _, leftVal, st => (leftVal, st)
  | fuel + 1, tailNode, leftVal, st =>
    process_expr_tail_go conf (process_add_op conf fuel)
      (process_expr_tail conf fuel) tailNode leftVal st

/-- Body of `_process_term_tail` (`MUL`/`DIV` twin of
`_process_expr_tail`), recursions abstracted. -/
def process_term_tail_go (conf : PConf)
    (recMul recSelf : ASTNode → Option String → PState → Option String × PState)
    (tailNode : ASTNode) (leftVal : Option String) (st : PState) :
    Option String × PState :=
  if tailNode.children.isEmpty then (leftVal, st)
  else
    let children := tailNode.children
    let fmt1 : Bool :=
      if children.length = 1 ∧ ¬ (children.getD 0 default).children.isEmpty then
        if (children.getD 0 default).children.length ≥ 2 then
          match ((children.getD 0 default).children.getD 0 default).token with
          | some tk =>
            (¬ excluded_op_types.contains tk.type) &&
              (tk.type == "MUL" || tk.type == "DIV")
          | none => false
        else false
      else false
    if fmt1 then recMul (children.getD 0 default) leftVal st
    else
      if (¬ children.isEmpty) ∧ (children.getD 0 default).token.isSome ∧
          children.length ≥ 2 then
        match (children.getD 0 default).token with
        | some tk =>
          if ¬ excluded_op_types.contains tk.type then
            if tk.type = "MUL" ∨ tk.type = "DIV" then
              let op := (children.getD 0 default).synth
              let rightVal := (children.getD 1 default).synth
              if truthy op ∧ truthy rightVal then
                let tmp := new_temp st
                let st2 := emit conf tmp.2
                  (tmp.1 ++ " = " ++ pyStr leftVal ++ " " ++ pyStr op ++ " " ++ pyStr rightVal)
                if children.length > 2 ∧ ¬ (children.getD 2 default).children.isEmpty then
                  recSelf (children.getD 2 default) (some tmp.1) st2
                else (some tmp.1, st2)
              else (leftVal, st)
            else (leftVal, st)
          else (leftVal, st)
        | none => (leftVal, st)
      else (leftVal, st)

/-- `_process_term_tail` proper. -/
def process_term_tail (conf : PConf) : Nat → ASTNode → Option String →
    PState → Option String × PState
  | 0, _, leftVal, st => (leftVal, st)
  | fuel + 1, tailNode, leftVal, st =>
    process_term_tail_go conf (process_mul_op conf fuel)
      (process_term_tail conf fuel) tailNode leftVal st

/-- The nested `collect_ids_from_tail` of the declaration branch: walk
`'COMMA' 'ID' Tail` shapes, inserting each identifier into the symbol
table. -/
def collect_ids_go (rec : ASTNode → PState → PState)
    (tailNode : ASTNode) (st : PState) : PState :=
  if tailNode.children.isEmpty then st
  else if tailNode.children.length ≥ 2 then
    let commaNode := tailNode.children.getD 0 default
    let idNode := tailNode.children.getD 1 default
    match commaNode.token with
    | some ctk =>
      if ctk.type = "COMMA" then
        let st1 :=
          match idNode.token with
          | some itk =>
            if itk.type = "ID" then
              match idNode.synth with
              | some v => if ¬ strIsEmpty v then symInsert st v else st
              | none => st
            else st
          | none => st
        if tailNode.children.length > 2 then
          rec (tailNode.children.getD 2 default) st1
        else st1
      else st
    | none => st
  else st

/-- The walk proper. -/
def collect_ids_from_tail : Nat → ASTNode → PState → PState
  | 0, _, st => st
  | fuel + 1, tailNode, st =>
    collect_ids_go (collect_ids_from_tail fuel) tailNode st

/-- Factor-`'ID'` branch body of `_apply_translation_scheme` (dead:
shadowed by the leading unit-production branch). -/
def ats_use (conf : PConf) (children : List ASTNode) (st : PState) :
    Option String × PState :=
  let varName := (children.getD 0 default).synth
  let st1 :=
    match varName with
    | some v =>
      if ¬ strIsEmpty v ∧ conf.enable_variable_check then
        (check_variable_defined conf st v (children.getD 0 default).token).1
      else st
    | none => st
  (varName, st1)

/-- Assignment branch body (`'ID' 'ASSIGN' Expr 'SEMI'`). -/
def ats_assign (conf : PConf) (children : List ASTNode) (st : PState) :
    Option String × PState :=
  let varName := (children.getD 0 default).synth
  let exprVal := (children.getD 2 default).synth
  match varName with
  | some v =>
    if ¬ strIsEmpty v then
      let st1 :=
        if ¬ st.symbol_table.contains v then
          let st0 :=
            if conf.requires_explicit_declaration then
              (check_variable_defined conf st v (children.getD 0 default).token).1
            else st
          symInsert st0 v
        else st
      if truthy exprVal then (none, emit conf st1 (v ++ " = " ++ pyStr exprVal))
      else (none, st1)
    else (none, st)
  | none => (none, st)

/-- Output-statement branch body (keyword `'LPAREN'` Expr `'RPAREN'`). -/
def ats_output (conf : PConf) (production : List String)
    (children : List ASTNode) (st : PState) : Option String × PState :=
  if is_keyword_by_structure production 0 then
    let exprVal := (children.getD 2 default).synth
    if truthy exprVal then
      (none, emit conf (emit conf st ("param " ++ pyStr exprVal)) "call write, 1")
    else (none, st)
  else (none, st)

/-- Input-statement branch body (`'READ' 'ID'` …). -/
def ats_read (conf : PConf) (children : List ASTNode) (st : PState) :
    Option String × PState :=
  let varName := (children.getD 1 default).synth
  if truthy varName then
    let tmp := new_temp st
    let st2 := emit conf tmp.2 (tmp.1 ++ " = call read, 0")
    (none, emit conf st2 (pyStr varName ++ " = " ++ tmp.1))
  else (none, st)

/-- While-loop branch body (`'WHILE' 'LPAREN'` C `'RPAREN'` S): the
action runs after all children (condition and body included) have been
parsed and emitted. -/
def ats_while (conf : PConf) (children : List ASTNode) (st : PState) :
    Option String × PState :=
  let lab1 := new_label st
  let lab2 := new_label lab1.2
  let st3 := emit conf lab2.2 (lab1.1 ++ ":")
  let boolVal := (children.getD 2 default).synth
  let st4 :=
    if truthy boolVal then
      let tmp := new_temp st3
      let sta := emit conf tmp.2 (tmp.1 ++ " = not " ++ pyStr boolVal)
      emit conf sta ("if " ++ tmp.1 ++ " goto " ++ lab2.1)
    else st3
  let st5 := emit conf st4 ("goto " ++ lab1.1)
  (none, emit conf st5 (lab2.1 ++ ":"))

/-- If-statement branch body (`'IF' 'LPAREN'` C `'RPAREN'` S). -/
def ats_cond (conf : PConf) (children : List ASTNode) (st : PState) :
    Option String × PState :=
  let boolVal := (children.getD 2 default).synth
  let lab := new_label st
  let st4 :=
    if truthy boolVal then
      let tmp := new_temp lab.2
      let sta := emit conf tmp.2 (tmp.1 ++ " = not " ++ pyStr boolVal)
      emit conf sta ("if " ++ tmp.1 ++ " goto " ++ lab.1)
    else lab.2
  (none, emit conf st4 (lab.1 ++ ":"))

/-- Boolean-expression branch body (Expr Op Expr); `_apply_binary_op`
inlined (its `None` guard cannot fire here). -/
def ats_binop (conf : PConf) (production : List String)
    (children : List ASTNode) (st : PState) : Option String × PState :=
  if is_binary_operator_by_structure production 1 then
    let opNode := children.getD 1 default
    match opNode.token with
    | some _ =>
      let e1 := (children.getD 0 default).synth
      let opVal := opNode.synth
      let e2 := (children.getD 2 default).synth
      if truthy e1 ∧ truthy opVal ∧ truthy e2 then
        let tmp := new_temp st
        (some tmp.1, emit conf tmp.2
          (tmp.1 ++ " = " ++ pyStr e1 ++ " " ++ pyStr opVal ++ " " ++ pyStr e2))
      else (none, st)
    | none => (none, st)
  else (none, st)

/-- Declaration-list branch body (`'ID'` Tail …). -/
def ats_decl (conf : PConf) (fuel : Nat) (children : List ASTNode)
    (st : PState) : Option String × PState :=
  let st1 :=
    match (children.getD 0 default).token with
    | some tk =>
      if tk.type = "ID" then
        match (children.getD 0 default).synth with
        | some v => if ¬ strIsEmpty v then symInsert st v else st
        | none => st
      else st
    | none => st
  let st2 :=
    if children.length > 1 then
      collect_ids_from_tail fuel (children.getD 1 default) st1
    else st1
  (none, st2)

/-- `_apply_translation_scheme`: the full `if/elif` chain, in source
order.  The chain order matters and is preserved: in particular the
leading `len(production) == 1` branch shadows the later
`'NUM'`/`'ID'`/single-terminal branches (so identifier *uses* never reach
`check_variable_defined`), and the two identical two-nonterminal guards
make the second (`_process_term_tail`) branch dead.  Returns the
synthesized value assigned to the node and the updated state. -/
def apply_translation_scheme (conf : PConf) (fuel : Nat)
    (production : List String) (children : List ASTNode) (st : PState) :
    Option String × PState :=
  let p0 := production.getD 0 ""
  let p1 := production.getD 1 ""
  let p2 := production.getD 2 ""
  -- single child: pass the value through
  if production.length = 1 then
    ((children.getD 0 default).synth, st)
  -- expression tail (additions): two nonterminals
  else if production.length = 2 ∧ ¬ strStartsWith p0 "\x27" ∧ ¬ strStartsWith p1 "\x27" then
    process_expr_tail conf fuel (children.getD 1 default)
      (children.getD 0 default).synth st
  -- term tail (multiplications): dead twin of the previous branch
  else if production.length = 2 ∧ ¬ strStartsWith p0 "\x27" ∧ ¬ strStartsWith p1 "\x27" then
    process_term_tail conf fuel (children.getD 1 default)
      (children.getD 0 default).synth st
  -- factor 'NUM' (dead: shadowed by the first branch)
  else if production.length = 1 ∧ p0 = "\x27NUM\x27" then
    ((children.getD 0 default).synth, st)
  -- factor 'ID' (dead: shadowed by the first branch)
  else if production.length = 1 ∧ p0 = "\x27ID\x27" then
    ats_use conf children st
  -- parenthesised expression
  else if production.length = 3 ∧ p0 = "\x27LPAREN\x27" ∧ p2 = "\x27RPAREN\x27" then
    ((children.getD 1 default).synth, st)
  -- assignment 'ID' 'ASSIGN' Expr 'SEMI'
  else if production.length ≥ 3 ∧ p0 = "\x27ID\x27" ∧ p1 = "\x27ASSIGN\x27" then
    ats_assign conf children st
  -- output statement: keyword 'LPAREN' Expr 'RPAREN' …
  else if production.length ≥ 4 ∧ strStartsWith p0 "\x27" ∧ p1 = "\x27LPAREN\x27" ∧
      ¬ strStartsWith p2 "\x27" then
    ats_output conf production children st
  -- input statement 'READ' 'ID' …
  else if production.length ≥ 2 ∧ p0 = "\x27READ\x27" ∧ p1 = "\x27ID\x27" then
    ats_read conf children st
  -- while loop 'WHILE' 'LPAREN' C 'RPAREN' S
  else if production.length ≥ 5 ∧ p0 = "\x27WHILE\x27" ∧ p1 = "\x27LPAREN\x27" then
    ats_while conf children st
  -- if statement 'IF' 'LPAREN' C 'RPAREN' S
  else if production.length ≥ 5 ∧ p0 = "\x27IF\x27" ∧ p1 = "\x27LPAREN\x27" then
    ats_cond conf children st
  -- boolean expression Expr Op Expr
  else if production.length ≥ 3 ∧ ¬ strStartsWith p0 "\x27" ∧ strStartsWith p1 "\x27" ∧
      ¬ strStartsWith p2 "\x27" then
    ats_binop conf production children st
  -- single terminal pass-through (dead: shadowed by the first branch)
  else if production.length = 1 ∧ strStartsWith p0 "\x27" then
    if ¬ excluded_token_types.contains (stripQuote p0) then
      ((children.getD 0 default).synth, st)
    else (none, st)
  -- declaration list 'ID' Tail …
  else if production.length ≥ 2 ∧ p0 = "\x27ID\x27" ∧ ¬ strStartsWith p1 "\x27" then
    ats_decl conf fuel children st
  else (none, st)

/-- The immutable inputs of a parse run. -/
structure ParseEnv where
  grammar : Grammar
  select_sets : List (String × List TermSet)
  first_sets : SMap
  follow_sets : SMap
deriving Repr

def mkEnv (pg : PGen) : ParseEnv :=
  ⟨pg.grammar, pg.select_sets, pg.first_sets, pg.follow_sets⟩

/-- A raised `ParseError` (message text cosmetic; we keep its data). -/
inductive ParseErr where
  | mismatch (line column : Nat) (expected found : String)
  | unknownSymbol (sym : String)
  | noAlternative (expected : TermSet)
  | trailingTokens
  | fuelExhausted
deriving DecidableEq, Repr

/-- `current_token`. -/
def current_token (st : PState) : Token :=
  if st.pos < st.tokens.length then st.tokens.getD st.pos ⟨"", "", 0, 0⟩
  else st.tokens.getLastD ⟨"", "", 0, 0⟩

/-- `match` (consume one token of the expected type). -/
def matchTok (st : PState) (expectedType : String) :
    Except ParseErr (Token × PState) :=
  let current := current_token st
  if current.type = expectedType then
    .ok (current, { st with pos := st.pos + 1 })
  else .error (.mismatch current.line current.column expectedType current.type)

/-- Select the production whose SELECT set contains the lookahead
(first hit in list order, as in the `for i, select_set in enumerate`
loop). -/
def findProduction : List TermSet → List Production → String →
    Option Production
  | sel :: sels, prod :: prods, tt =>
    if sel.contains tt then some prod else findProduction sels prods tt
  | _, _, _ => none

/-- The expected-set computation of the `parse_symbol` error path. -/
def expected_for (env : ParseEnv) (symbol : String) : TermSet :=
  let fs := mget env.first_sets symbol
  if fs.contains "EPSILON" then
    tsUnion (tsRemove fs "EPSILON") (mget env.follow_sets symbol)
  else tsRemove fs "EPSILON"

/-- `parse_symbol`, merged with its child-sequence loop into one
fuel-structural function: `parseSyms … [X] …` parses the single symbol
`X`; a nonterminal selects its production by SELECT set, parses the
children, and (with SDT enabled) runs the translation scheme on the
resulting node; an ε-production yields a bare node without running the
translation scheme. -/
def parseSyms_go (env : ParseEnv) (conf : PConf)
    (rec : List String → PState → Except ParseErr (List ASTNode × PState))
    (fuel : Nat) (symbol : String) (rest : List String) (st : PState) :
    Except ParseErr (List ASTNode × PState) :=
  let one : Except ParseErr (ASTNode × PState) :=
    if strStartsWith symbol "\x27" ∧ strEndsWith symbol "\x27" then
      match matchTok st (stripQuote symbol) with
      | .error e => .error e
      | .ok (tk, st') =>
        -- terminal synthesized attribute: its lexical value
        .ok (.node tk.type [] (some tk) (some tk.value), st')
    else if ¬ gcontains env.grammar symbol then
      .error (.unknownSymbol symbol)
    else
      let currentType := (current_token st).type
      let sels := sel_lookup env.select_sets symbol
      match findProduction sels (gget env.grammar symbol) currentType with
      | none => .error (.noAlternative (expected_for env symbol))
      | some production =>
        if production.isEmpty then .ok (.node symbol [] none none, st)
        else
          match rec production st with
          | .error e => .error e
          | .ok (children, st') =>
            if conf.enable_sdt then
              let res := apply_translation_scheme conf fuel production children st'
              .ok (.node symbol children none res.1, res.2)
            else .ok (.node symbol children none none, st')
  match one with
  | .error e => .error e
  | .ok (node, st1) =>
    match rec rest st1 with
    | .error e => .error e
    | .ok (nodes, st2) => .ok (node :: nodes, st2)

/-- The recursion proper (both the child parse and the remaining-sequence
parse recurse at the decremented fuel). -/
def parseSyms (env : ParseEnv) (conf : PConf) :
    Nat → List String → PState → Except ParseErr (List ASTNode × PState)
  | 0, _, _ => .error .fuelExhausted
  | _ + 1, [], st => .ok ([], st)
  | fuel + 1, symbol :: rest, st =>
    parseSyms_go env conf (parseSyms env conf fuel) fuel symbol rest st

/-- `parse`: reset the code-generation state, install the token list,
parse the start symbol, and require the lookahead to be `EOF`. -/
def parse (env : ParseEnv) (conf : PConf) (startSymbol : String)
    (fuel : Nat) (st : PState) (tokens : List Token) :
    Except ParseErr (ASTNode × PState) :=
  let st0 := { reset_code_generation st with tokens := tokens, pos := 0 }
  match parseSyms env conf fuel [startSymbol] st0 with
  | .error e => .error e
  | .ok (nodes, st1) =>
    if (current_token st1).type = "EOF" then .ok (nodes.getD 0 default, st1)
    else .error .trailingTokens

/-- The post-lexing part of `cli._cmd_compile`: parse (the parser built by
`create_parser_from_spec(grammar_rules, start_symbol)` — no metadata, so
`requires_explicit_declaration` is false), and on success write
`parser.get_generated_code()` and return exit code 0; on a `ParseError`
return exit code 1 with no output.  `has_semantic_errors` is never
consulted.  Returns (exit code, written TAC output if any, the semantic
error list accumulated by the parse). -/
def cmd_compile (env : ParseEnv) (startSymbol : String) (fuel : Nat)
    (tokens : List Token) : Nat × Option String × List SemErr :=
  let conf : PConf := ⟨true, true, false⟩
  match parse env conf startSymbol fuel initPState tokens with
  | .error _ => (1, none, [])
  | .ok (_, st) => (0, some (get_generated_code st), st.semantic_errors)

/-- The state evolution invariant of every semantic action: the symbol
table only grows, and every freshly recorded semantic error names an
identifier that was absent from the symbol table when the action
started. -/
def StOk (st R : PState) : Prop :=
  (∀ n ∈ st.symbol_table, n ∈ R.symbol_table) ∧
  (∀ e ∈ R.semantic_errors,
    e ∈ st.semantic_errors ∨ e.name ∉ st.symbol_table)

/-- The assignment production `'ID' 'ASSIGN' Expr 'SEMI'`. -/
def assignProd : Production :=
  ["\x27ID\x27", "\x27ASSIGN\x27", "Expr", "\x27SEMI\x27"]

/-- The declaration-list production `'ID' IdListTail`. -/
def declProd : Production := ["\x27ID\x27", "IdListTail"]

/-- The identifier-use production `Factor -> 'ID'`. -/
def useProd : Production := ["\x27ID\x27"]

/-! ## Concrete instances

An LL(1) grammar of the while-language of spec scenario 4 (declarations,
assignment, `write`, comparison, while loop) and the token stream of the
scenario-4 source

```
var i ;
i = 0 ;
while ( i < 3 ) \x7b write(i); i = i + 1 ; \x7d
```

as produced by a lexer with the usual token types. -/

def whileGrammar : Grammar := [
  ("Program", [["StmtList"]]),
  ("StmtList", [["Stmt", "StmtList"], []]),
  ("Stmt", [["\x27ID\x27", "\x27ASSIGN\x27", "Expr", "\x27SEMI\x27"],
            ["\x27WHILE\x27", "\x27LPAREN\x27", "Cond", "\x27RPAREN\x27", "Stmt"],
            ["\x27WRITE\x27", "\x27LPAREN\x27", "Expr", "\x27RPAREN\x27", "\x27SEMI\x27"],
            ["\x27LBRACE\x27", "StmtList", "\x27RBRACE\x27"],
            ["\x27VAR\x27", "IdList", "\x27SEMI\x27"]]),
  ("Cond", [["Expr", "\x27LT\x27", "Expr"]]),
  ("Expr", [["Term", "ExprTail"]]),
  ("ExprTail", [["\x27PLUS\x27", "Term", "ExprTail"], []]),
  ("Term", [["Factor", "TermTail"]]),
  ("TermTail", [["\x27MUL\x27", "Factor", "TermTail"], []]),
  ("Factor", [["\x27NUM\x27"], ["\x27ID\x27"], ["\x27LPAREN\x27", "Expr", "\x27RPAREN\x27"]]),
  ("IdList", [["\x27ID\x27", "IdListTail"]]),
  ("IdListTail", [["\x27COMMA\x27", "\x27ID\x27", "IdListTail"], []])]

/-- The PL/0-style configuration: SDT on, variable check on, explicit
declarations required. -/
def pl0Conf : PConf := ⟨true, true, true⟩

def scenario4Tokens : List Token := [
  ⟨"VAR", "var", 1, 1⟩, ⟨"ID", "i", 1, 5⟩, ⟨"SEMI", ";", 1, 7⟩,
  ⟨"ID", "i", 2, 1⟩, ⟨"ASSIGN", "=", 2, 3⟩, ⟨"NUM", "0", 2, 5⟩,
  ⟨"SEMI", ";", 2, 7⟩,
  ⟨"WHILE", "while", 3, 1⟩, ⟨"LPAREN", "(", 3, 7⟩, ⟨"ID", "i", 3, 9⟩,
  ⟨"LT", "<", 3, 11⟩, ⟨"NUM", "3", 3, 13⟩, ⟨"RPAREN", ")", 3, 15⟩,
  ⟨"LBRACE", "\x7b", 3, 17⟩,
  ⟨"WRITE", "write", 3, 19⟩, ⟨"LPAREN", "(", 3, 24⟩, ⟨"ID", "i", 3, 25⟩,
  ⟨"RPAREN", ")", 3, 26⟩, ⟨"SEMI", ";", 3, 27⟩,
  ⟨"ID", "i", 3, 29⟩, ⟨"ASSIGN", "=", 3, 31⟩, ⟨"ID", "i", 3, 33⟩,
  ⟨"PLUS", "+", 3, 35⟩, ⟨"NUM", "1", 3, 37⟩, ⟨"SEMI", ";", 3, 39⟩,
  ⟨"RBRACE", "\x7d", 3, 41⟩,
  ⟨"EOF", "", 3, 42⟩]

/-- The TAC buffer the SDT parser produces for the scenario-4 program. -/
def scenario4TAC : List String :=
  match build_analysis_sets whileGrammar "Program" with
  | .ok pg =>
    match parse (mkEnv pg) pl0Conf "Program" 100 initPState scenario4Tokens with
    | .ok (_, st) => st.code_buffer
    | .error _ => ["parse-error"]
  | .error _ => ["build-error"]

/-- Token stream of `x = y ;` — `y` is used without any declaration. -/
def undeclaredUseTokens : List Token := [
  ⟨"ID", "x", 1, 1⟩, ⟨"ASSIGN", "=", 1, 3⟩, ⟨"ID", "y", 1, 5⟩,
  ⟨"SEMI", ";", 1, 7⟩, ⟨"EOF", "", 1, 8⟩]

/-- What `cli._cmd_compile` does with the `x = y ;` source after lexing:
exit code, written TAC output, accumulated semantic errors. -/
def cliUndeclaredUseResult : Nat × Option String × List SemErr :=
  match build_analysis_sets whileGrammar "Program" with
  | .ok pg => cmd_compile (mkEnv pg) "Program" 100 undeclaredUseTokens
  | .error _ => (2, none, [])

/-- Token stream of `x = 1 ;` — an assignment whose target `x` was never
declared. -/
def assignTargetTokens : List Token := [
  ⟨"ID", "x", 1, 1⟩, ⟨"ASSIGN", "=", 1, 3⟩, ⟨"NUM", "1", 1, 5⟩,
  ⟨"SEMI", ";", 1, 7⟩, ⟨"EOF", "", 1, 8⟩]

/-- The semantic errors recorded when parsing `x = 1 ;` with explicit
declarations required. -/
def assignTargetErrors : List SemErr :=
  match build_analysis_sets whileGrammar "Program" with
  | .ok pg =>
    match parse (mkEnv pg) pl0Conf "Program" 100 initPState assignTargetTokens with
    | .ok (_, st) => st.semantic_errors
    | .error _ => []
  | .error _ => []

/-- Token stream of `x = 1 ; x = x ;` — the first assignment targets the
undeclared `x`; the second both targets and uses `x` after the first
assignment has inserted it. -/
def doubleAssignTokens : List Token := [
  ⟨"ID", "x", 1, 1⟩, ⟨"ASSIGN", "=", 1, 3⟩, ⟨"NUM", "1", 1, 5⟩,
  ⟨"SEMI", ";", 1, 7⟩,
  ⟨"ID", "x", 2, 1⟩, ⟨"ASSIGN", "=", 2, 3⟩, ⟨"ID", "x", 2, 5⟩,
  ⟨"SEMI", ";", 2, 7⟩, ⟨"EOF", "", 2, 8⟩]

/-- The semantic errors recorded for `x = 1 ; x = x ;` with explicit
declarations required. -/
def doubleAssignErrors : List SemErr :=
  match build_analysis_sets whileGrammar "Program" with
  | .ok pg =>
    match parse (mkEnv pg) pl0Conf "Program" 100 initPState doubleAssignTokens with
    | .ok (_, st) => st.semantic_errors
    | .error _ => []
  | .error _ => []

/-- The grammar transformation exactly as `build_analysis_sets` performs
it: identify symbols, eliminate left recursion, left-factor. -/
def transform_grammar (g0 : Grammar) : Grammar :=
  perform_left_factoring (eliminate_left_recursion g0 (identify_symbols g0).1).1

/-- Some production has the shape `A -> A …`. -/
def hasDirectLeftRecursion (g : Grammar) : Bool :=
  g.any (fun p => p.2.any (fun production =>
    match production with
    | x :: _ => x == p.1
    | [] => false))

def prodsSharePref : List Production → Bool
  | [] => false
  | p :: rest => rest.any (fun q => headsMatch p q) || prodsSharePref rest

/-- Some nonterminal has two alternatives sharing a nonempty common
prefix (equivalently: two alternatives with the same head symbol). -/
def hasSharedPref (g : Grammar) : Bool := g.any (fun p => prodsSharePref p.2)

/-- The one-nonterminal grammar `A -> A | 'b'`. -/
def selfRecGrammar : Grammar := [("A", [["A"], ["\x27b\x27"]])]

/-- Every token type returned by the longest-match loop is either the
remembered candidate or the tag of some accepting DFA state. -/
lemma dfaMatch_token_src (d : DFA) (text : List Char) :
    ∀ fuel state cur lt lp t p,
      dfaMatch d text fuel state cur lt lp = (some t, p) →
      lt = some t ∨ ∃ s, d.accept s = some t := by
  intro fuel
  induction fuel with
  | zero =>
    intro state cur lt lp t p h
    simp only [dfaMatch, Prod.mk.injEq] at h
    exact Or.inl h.1
  | succ f ih =>
    intro state cur lt lp t p h
    simp only [dfaMatch] at h
    split at h
    · simp only [Prod.mk.injEq] at h; exact Or.inl h.1
    · split at h
      · simp only [Prod.mk.injEq] at h; exact Or.inl h.1
      · split at h
        · rename_i t0 ha
          rcases ih _ _ _ _ _ _ h with h1 | h2
          · exact Or.inr ⟨_, h1 ▸ ha⟩
          · exact Or.inr h2
        · exact ih _ _ _ _ _ _ h

/-- Every token produced by the scanning loop carries a type coming from
an accepting DFA state, and any lexical error cites a character of the
input. -/
lemma lexLoop_shape (d : DFA) (text : List Char) :
    ∀ fuel pos line column,
      (∀ ts l c, lexLoop d text fuel pos line column = .ok (ts, l, c) →
        ∀ tk ∈ ts, ∃ s, d.accept s = some tk.type) ∧
      (∀ e, lexLoop d text fuel pos line column = .error e → e.ch ∈ text) := by
  intro fuel
  induction fuel with
  | zero =>
    intro pos line column
    constructor
    · intro ts l c h
      simp only [lexLoop, Except.ok.injEq, Prod.mk.injEq] at h
      intro tk htk; rw [← h.1] at htk; cases htk
    · intro e h; simp [lexLoop] at h
  | succ f ih =>
    intro pos line column
    constructor
    · intro ts l c h
      cases hg : text[pos]? with
      | none =>
        simp only [lexLoop, hg, Except.ok.injEq, Prod.mk.injEq] at h
        intro tk htk; rw [← h.1] at htk; cases htk
      | some ch =>
        by_cases hsp : pyIsSpace ch
        · by_cases hnl : ch = '\n'
          · simp only [lexLoop, hg, hsp, hnl, if_true] at h
            exact (ih _ _ _).1 _ _ _ h
          · simp only [lexLoop, hg, hsp, hnl, if_true, if_false] at h
            exact (ih _ _ _).1 _ _ _ h
        · by_cases hcm : text[pos + 1]? = some '/' ∧ ch = '/'
          · obtain ⟨hc1, hc2⟩ := hcm
            subst hc2
            cases hf : findNl text pos with
            | none =>
              simp [lexLoop, hg, hsp, hc1, hf] at h
              obtain ⟨h1, -, -⟩ := h
              subst h1
              intro tk htk; cases htk
            | some e' =>
              simp [lexLoop, hg, hsp, hc1, hf] at h
              exact (ih _ _ _).1 _ _ _ h
          · cases hm : dfaMatch d text (text.length + 1) d.start pos none pos with
            | mk mt mp =>
              cases mt with
              | none => simp [lexLoop, hg, hsp, hcm, hm] at h
              | some tok =>
                simp only [lexLoop, hg, hsp, Bool.false_eq_true, if_false, hcm,
                  if_neg, hm] at h
                cases hrec : lexLoop d text f mp
                    ((advanceLineCol line column ((text.drop pos).take (mp - pos))).1)
                    ((advanceLineCol line column ((text.drop pos).take (mp - pos))).2) with
                | error e' =>
                  simp only [hrec] at h
                  exact Except.noConfusion h
                | ok r =>
                  obtain ⟨ts', l', c'⟩ := r
                  simp only [hrec, Except.ok.injEq, Prod.mk.injEq] at h
                  intro tk htk
                  rw [← h.1] at htk
                  rcases List.mem_cons.mp htk with h1 | h2
                  · subst h1
                    rcases dfaMatch_token_src d text _ _ _ _ _ _ _ hm with h3 | h3
                    · cases h3
                    · exact h3
                  · exact (ih _ _ _).1 _ _ _ hrec _ h2
    · intro e h
      cases hg : text[pos]? with
      | none => simp [lexLoop, hg] at h
      | some ch =>
        by_cases hsp : pyIsSpace ch
        · by_cases hnl : ch = '\n'
          · simp only [lexLoop, hg, hsp, hnl, if_true] at h
            exact (ih _ _ _).2 _ h
          · simp only [lexLoop, hg, hsp, hnl, if_true, if_false] at h
            exact (ih _ _ _).2 _ h
        · by_cases hcm : text[pos + 1]? = some '/' ∧ ch = '/'
          · obtain ⟨hc1, hc2⟩ := hcm
            subst hc2
            cases hf : findNl text pos with
            | none => simp [lexLoop, hg, hsp, hc1, hf] at h
            | some e' =>
              simp [lexLoop, hg, hsp, hc1, hf] at h
              exact (ih _ _ _).2 _ h
          · cases hm : dfaMatch d text (text.length + 1) d.start pos none pos with
            | mk mt mp =>
              cases mt with
              | none =>
                simp only [lexLoop, hg, hsp, Bool.false_eq_true, if_false, hcm,
                  if_neg, hm, Except.error.injEq] at h
                rw [← h]
                exact List.getElem?_mem hg
              | some tok =>
                simp only [lexLoop, hg, hsp, Bool.false_eq_true, if_false, hcm,
                  if_neg, hm] at h
                cases hrec : lexLoop d text f mp
                    ((advanceLineCol line column ((text.drop pos).take (mp - pos))).1)
                    ((advanceLineCol line column ((text.drop pos).take (mp - pos))).2) with
                | error e' =>
                  simp only [hrec, Except.error.injEq] at h
                  rw [← h]
                  exact (ih _ _ _).2 _ hrec
                | ok r =>
                  obtain ⟨ts', l', c'⟩ := r
                  simp only [hrec] at h
                  exact Except.noConfusion h

/-- C3: for every built lexer (`EOF` being a reserved token type, no DFA
state is tagged `"EOF"`) and every input, `tokenize` either fails with a
lexical error citing the offending character (a character of the input)
and its line/column, or returns a token list whose final element is the
one `EOF` token, appended exactly once, at the final line and column; on
the empty input it returns exactly `[EOF]` at line 1, column 1. -/
theorem tokenize_ends_in_single_eof (d : DFA) (text : List Char)
    (hEOF : ∀ s, d.accept s ≠ some "EOF") :
    ((∃ e, tokenize d text = .error e ∧ e.ch ∈ text) ∨
      (∃ ts line column, tokenize d text = .ok (ts ++ [⟨"EOF", "", line, column⟩]) ∧
        ∀ tk ∈ ts, tk.type ≠ "EOF")) ∧
    tokenize d [] = .ok [⟨"EOF", "", 1, 1⟩] := by
  constructor
  · cases hr : lexLoop d text (text.length + 1) 0 1 1 with
    | error e =>
      exact Or.inl ⟨e, by simp [tokenize, hr],
        (lexLoop_shape d text (text.length + 1) 0 1 1).2 e hr⟩
    | ok r =>
      obtain ⟨ts, line, column⟩ := r
      refine Or.inr ⟨ts, line, column, by simp [tokenize, hr], ?_⟩
      intro tk htk
      obtain ⟨s, hs⟩ := (lexLoop_shape d text (text.length + 1) 0 1 1).1 ts line column hr tk htk
      intro hcon
      exact hEOF s (hcon ▸ hs)
  · rfl

/-- Full characterisation of the longest-match loop, by induction on the
fuel: the final position never shrinks, a remembered candidate is never
lost, any returned token is witnessed by an accepting run of exactly
`rp - cur` characters, and every accepting run (of ≥ 1 characters) is
dominated by the returned position. -/
lemma dfaMatch_invariant (d : DFA) (text : List Char) :
    ∀ fuel state cur lt lp rt rp, text.length - cur ≤ fuel → lp ≤ cur + 1 →
      dfaMatch d text fuel state cur lt lp = (rt, rp) →
      lp ≤ rp ∧
      (lt.isSome → rt.isSome) ∧
      (∀ t, rt = some t →
        (lt = some t ∧ rp = lp) ∨
        (∃ k, 1 ≤ k ∧ rp = cur + k ∧
          ∃ s, runDFA d text state cur k = some s ∧ d.accept s = some t)) ∧
      (∀ k s t, 1 ≤ k → runDFA d text state cur k = some s → d.accept s = some t →
        cur + k ≤ rp ∧ rt.isSome) := by
  intro fuel
  induction fuel with
  | zero =>
    intro state cur lt lp rt rp hfuel hlp hm
    simp only [dfaMatch, Prod.mk.injEq] at hm
    obtain ⟨h1, h2⟩ := hm
    subst h1; subst h2
    refine ⟨le_refl _, fun h => h, fun t ht => Or.inl ⟨ht, rfl⟩, ?_⟩
    intro k s t hk hrun hacc
    exfalso
    have hnone : text[cur]? = none := by
      apply List.getElem?_eq_none; omega
    cases k with
    | zero => omega
    | succ k' => simp [runDFA, hnone] at hrun
  | succ f ih =>
    intro state cur lt lp rt rp hfuel hlp hm
    cases hg : text[cur]? with
    | none =>
      simp only [dfaMatch, hg, Prod.mk.injEq] at hm
      obtain ⟨h1, h2⟩ := hm
      subst h1; subst h2
      refine ⟨le_refl _, fun h => h, fun t ht => Or.inl ⟨ht, rfl⟩, ?_⟩
      intro k s t hk hrun hacc
      exfalso
      cases k with
      | zero => omega
      | succ k' => simp [runDFA, hg] at hrun
    | some ch =>
      cases ht : d.trans state ch with
      | none =>
        simp only [dfaMatch, hg, ht, Prod.mk.injEq] at hm
        obtain ⟨h1, h2⟩ := hm
        subst h1; subst h2
        refine ⟨le_refl _, fun h => h, fun t ht' => Or.inl ⟨ht', rfl⟩, ?_⟩
        intro k s t hk hrun hacc
        exfalso
        cases k with
        | zero => omega
        | succ k' => simp [runDFA, hg, ht] at hrun
      | some s' =>
        have hlen : cur < text.length := by
          by_contra hcon
          rw [List.getElem?_eq_none (by omega)] at hg
          cases hg
        have hfuel' : text.length - (cur + 1) ≤ f := by omega
        cases ha : d.accept s' with
        | some t0 =>
          simp only [dfaMatch, hg, ht, ha] at hm
          obtain ⟨i1, i2, i3, i4⟩ :=
            ih s' (cur + 1) (some t0) (cur + 1) rt rp hfuel' (by omega) hm
          refine ⟨by omega, fun _ => i2 (by simp), ?_, ?_⟩
          · intro t hrt
            rcases i3 t hrt with ⟨he, hrp⟩ | ⟨k, hk, hrp, s, hrun, hacc⟩
            · refine Or.inr ⟨1, le_refl _, by omega, s', ?_, ?_⟩
              · simp [runDFA, hg, ht]
              · rw [ha]; exact he
            · refine Or.inr ⟨k + 1, by omega, by omega, s, ?_, hacc⟩
              simpa [runDFA, hg, ht] using hrun
          · intro k s t hk hrun hacc
            cases k with
            | zero => omega
            | succ k' =>
              simp only [runDFA, hg, ht] at hrun
              cases k' with
              | zero =>
                simp only [runDFA, Option.some.injEq] at hrun
                refine ⟨by omega, i2 (by simp)⟩
              | succ k'' =>
                obtain ⟨hle, hs⟩ := i4 (k'' + 1) s t (by omega) hrun hacc
                exact ⟨by omega, hs⟩
        | none =>
          simp only [dfaMatch, hg, ht, ha] at hm
          obtain ⟨i1, i2, i3, i4⟩ :=
            ih s' (cur + 1) lt lp rt rp hfuel' (by omega) hm
          refine ⟨i1, i2, ?_, ?_⟩
          · intro t hrt
            rcases i3 t hrt with ⟨he, hrp⟩ | ⟨k, hk, hrp, s, hrun, hacc⟩
            · exact Or.inl ⟨he, hrp⟩
            · refine Or.inr ⟨k + 1, by omega, by omega, s, ?_, hacc⟩
              simpa [runDFA, hg, ht] using hrun
          · intro k s t hk hrun hacc
            cases k with
            | zero => omega
            | succ k' =>
              simp only [runDFA, hg, ht] at hrun
              cases k' with
              | zero =>
                simp only [runDFA, Option.some.injEq] at hrun
                exfalso
                rw [← hrun] at hacc
                rw [ha] at hacc
                cases hacc
              | succ k'' =>
                obtain ⟨hle, hs⟩ := i4 (k'' + 1) s t (by omega) hrun hacc
                exact ⟨by omega, hs⟩

/-- The accumulator-generalised analysis of the `get_dfa_state`
accept-selection loop, starting from an already-chosen candidate
`(some p, tk)`: either no later accepting state improves on priority `p`
and the candidate survives, or the result is the tag of an accepting
state of minimal (and strictly smaller) priority. -/
lemma acceptFold_from_candidate :
    ∀ (l : List NfaSt) (p : Nat) (tk : Option String),
      (∀ n ∈ l, n.is_accept → n.priority.isSome) →
      (l.foldl acceptStep (some p, tk) = (some p, tk) ∧
        ∀ n ∈ l, n.is_accept → ∀ pn, n.priority = some pn → p ≤ pn) ∨
      (∃ nm ∈ l, nm.is_accept ∧
        l.foldl acceptStep (some p, tk) = (nm.priority, nm.token_type) ∧
        ∃ pm, nm.priority = some pm ∧ pm < p ∧
          ∀ n ∈ l, n.is_accept → ∀ pn, n.priority = some pn → pm ≤ pn) := by
  intro l
  induction l with
  | nil => intro p tk _; exact Or.inl ⟨rfl, by simp⟩
  | cons n t iht =>
    intro p tk h
    have ht : ∀ n' ∈ t, n'.is_accept → n'.priority.isSome :=
      fun n' hn' => h n' (List.mem_cons_of_mem _ hn')
    by_cases hacc : n.is_accept
    · obtain ⟨pn, hp⟩ := Option.isSome_iff_exists.mp (h n (List.mem_cons_self _ _) hacc)
      by_cases hlt : pn < p
      · have hstep : acceptStep (some p, tk) n = (some pn, n.token_type) := by
          simp [acceptStep, hacc, hp, hlt]
        rcases iht pn n.token_type ht with ⟨heq, hmin⟩ | ⟨nm, hmem, hnacc, heq, pm, hpm, hpmlt, hmin⟩
        · refine Or.inr ⟨n, List.mem_cons_self _ _, hacc, ?_, pn, hp, hlt, ?_⟩
          · rw [List.foldl_cons, hstep, heq, hp]
          · intro n' hn' hn'acc pn' hpn'
            rcases List.mem_cons.mp hn' with h1 | h1
            · subst h1; rw [hp] at hpn'; injection hpn' with hh; omega
            · exact hmin n' h1 hn'acc pn' hpn'
        · refine Or.inr ⟨nm, List.mem_cons_of_mem _ hmem, hnacc, ?_, pm, hpm, by omega, ?_⟩
          · rw [List.foldl_cons, hstep, heq]
          · intro n' hn' hn'acc pn' hpn'
            rcases List.mem_cons.mp hn' with h1 | h1
            · subst h1; rw [hp] at hpn'; injection hpn' with hh; omega
            · exact hmin n' h1 hn'acc pn' hpn'
      · have hstep : acceptStep (some p, tk) n = (some p, tk) := by
          simp [acceptStep, hacc, hp, hlt]
        rcases iht p tk ht with ⟨heq, hmin⟩ | ⟨nm, hmem, hnacc, heq, pm, hpm, hpmlt, hmin⟩
        · refine Or.inl ⟨by rw [List.foldl_cons, hstep, heq], ?_⟩
          intro n' hn' hn'acc pn' hpn'
          rcases List.mem_cons.mp hn' with h1 | h1
          · subst h1; rw [hp] at hpn'; injection hpn' with hh; omega
          · exact hmin n' h1 hn'acc pn' hpn'
        · refine Or.inr ⟨nm, List.mem_cons_of_mem _ hmem, hnacc,
            by rw [List.foldl_cons, hstep, heq], pm, hpm, hpmlt, ?_⟩
          intro n' hn' hn'acc pn' hpn'
          rcases List.mem_cons.mp hn' with h1 | h1
          · subst h1; rw [hp] at hpn'; injection hpn' with hh; omega
          · exact hmin n' h1 hn'acc pn' hpn'
    · have hstep : acceptStep (some p, tk) n = (some p, tk) := by
        simp [acceptStep, hacc]
      rcases iht p tk ht with ⟨heq, hmin⟩ | ⟨nm, hmem, hnacc, heq, pm, hpm, hpmlt, hmin⟩
      · refine Or.inl ⟨by rw [List.foldl_cons, hstep, heq], ?_⟩
        intro n' hn' hn'acc pn' hpn'
        rcases List.mem_cons.mp hn' with h1 | h1
        · subst h1; exact absurd hn'acc hacc
        · exact hmin n' h1 hn'acc pn' hpn'
      · refine Or.inr ⟨nm, List.mem_cons_of_mem _ hmem, hnacc,
          by rw [List.foldl_cons, hstep, heq], pm, hpm, hpmlt, ?_⟩
        intro n' hn' hn'acc pn' hpn'
        rcases List.mem_cons.mp hn' with h1 | h1
        · subst h1; exact absurd hn'acc hacc
        · exact hmin n' h1 hn'acc pn' hpn'

/-- When no state of the subset is accepting, the accept-selection loop
leaves the accumulator untouched. -/
lemma acceptFold_no_accept :
    ∀ (l : List NfaSt) (b : Option Nat × Option String),
      (∀ n ∈ l, n.is_accept = false) → l.foldl acceptStep b = b := by
  intro l
  induction l with
  | nil => intro b _; rfl
  | cons n t iht =>
    intro b h
    have hstep : acceptStep b n = b := by
      simp [acceptStep, h n (List.mem_cons_self _ _)]
    rw [List.foldl_cons, hstep]
    exact iht b fun n' hn' => h n' (List.mem_cons_of_mem _ hn')

/-- C5: (first conjunct) at each scan position the longest-match loop of
`tokenize` emits the token of the longest prefix the DFA accepts — it
returns the last accepting state reached, every accepted prefix length is
dominated by the returned one, and when nothing is accepted it reports
failure; (second conjunct) the `token_type` chosen by
`nfa_to_dfa.get_dfa_state` for an accepting DFA state is the tag of a
smallest-priority tagged NFA state of its subset (priorities are the rule
indices, so of two rules accepting the same lexeme the one listed first
wins). -/
theorem scanner_longest_match_and_min_priority :
    (∀ (d : DFA) (text : List Char) (pos fuel : Nat),
      text.length - pos ≤ fuel →
      (∀ t p, dfaMatch d text fuel d.start pos none pos = (some t, p) →
        pos < p ∧ acceptsAt d text pos (p - pos) t ∧
        ∀ k t', acceptsAt d text pos k t' → 1 ≤ k → k ≤ p - pos) ∧
      (∀ p, dfaMatch d text fuel d.start pos none pos = (none, p) →
        ∀ k t', 1 ≤ k → ¬ acceptsAt d text pos k t')) ∧
    (∀ l : List NfaSt,
      (∀ n ∈ l, n.is_accept → n.priority.isSome) →
      ((∀ n ∈ l, n.is_accept = false) → dfaAcceptFold l = (none, none)) ∧
      ((∃ n ∈ l, n.is_accept) →
        ∃ nm ∈ l, nm.is_accept ∧ dfaAcceptFold l = (nm.priority, nm.token_type) ∧
          ∀ n ∈ l, n.is_accept → ∀ pm pn,
            nm.priority = some pm → n.priority = some pn → pm ≤ pn)) := by
  constructor
  · intro d text pos fuel hfuel
    constructor
    · intro t p hm
      obtain ⟨i1, i2, i3, i4⟩ :=
        dfaMatch_invariant d text fuel d.start pos none pos (some t) p hfuel (by omega) hm
      rcases i3 t rfl with ⟨he, _⟩ | ⟨k, hk, hrp, s, hrun, hacc⟩
      · cases he
      · refine ⟨by omega, ⟨s, by rwa [hrp, Nat.add_sub_cancel_left], hacc⟩, ?_⟩
        intro k' t' ⟨s', hrun', hacc'⟩ hk'
        obtain ⟨hle, _⟩ := i4 k' s' t' hk' hrun' hacc'
        omega
    · intro p hm k t' hk ⟨s', hrun', hacc'⟩
      obtain ⟨_, _, _, i4⟩ :=
        dfaMatch_invariant d text fuel d.start pos none pos none p hfuel (by omega) hm
      obtain ⟨_, hsome⟩ := i4 k s' t' hk hrun' hacc'
      cases hsome
  · intro l h
    refine ⟨acceptFold_no_accept l (none, none), ?_⟩
    intro hex
    -- peel the list until the first accepting state to leave the initial
    -- `(none, none)` accumulator
    induction l with
    | nil => obtain ⟨n, hn, _⟩ := hex; cases hn
    | cons n t iht =>
      by_cases hacc : n.is_accept
      · obtain ⟨pn, hp⟩ := Option.isSome_iff_exists.mp (h n (List.mem_cons_self _ _) hacc)
        have hstep : acceptStep (none, none) n = (n.priority, n.token_type) := by
          simp [acceptStep, hacc]
        have ht : ∀ n' ∈ t, n'.is_accept → n'.priority.isSome :=
          fun n' hn' => h n' (List.mem_cons_of_mem _ hn')
        rcases acceptFold_from_candidate t pn n.token_type ht with
          ⟨heq, hmin⟩ | ⟨nm, hmem, hnacc, heq, pm, hpm, hpmlt, hmin⟩
        · refine ⟨n, List.mem_cons_self _ _, hacc, ?_, ?_⟩
          · show (n :: t).foldl acceptStep (none, none) = _
            rw [List.foldl_cons, hstep, hp, heq]
          · intro n' hn' hn'acc pm' pn' hpm' hpn'
            rw [hp] at hpm'; injection hpm' with he; subst he
            rcases List.mem_cons.mp hn' with h1 | h1
            · subst h1; rw [hp] at hpn'; injection hpn' with he'; omega
            · exact hmin n' h1 hn'acc pn' hpn'
        · refine ⟨nm, List.mem_cons_of_mem _ hmem, hnacc, ?_, ?_⟩
          · show (n :: t).foldl acceptStep (none, none) = _
            rw [List.foldl_cons, hstep, hp, heq]
          · intro n' hn' hn'acc pm' pn' hpm' hpn'
            rw [hpm] at hpm'; injection hpm' with he; subst he
            rcases List.mem_cons.mp hn' with h1 | h1
            · subst h1; rw [hp] at hpn'; injection hpn' with he'; omega
            · exact hmin n' h1 hn'acc pn' hpn'
      · have hstep : acceptStep (none, none) n = (none, none) := by
          simp [acceptStep, hacc]
        have hex' : ∃ n' ∈ t, n'.is_accept = true := by
          obtain ⟨n', hn', hn'acc⟩ := hex
          rcases List.mem_cons.mp hn' with h1 | h1
          · subst h1; exact absurd hn'acc hacc
          · exact ⟨n', h1, hn'acc⟩
        obtain ⟨nm, hmem, hnacc, heq, hmin⟩ :=
          iht (fun n' hn' => h n' (List.mem_cons_of_mem _ hn')) hex'
        refine ⟨nm, List.mem_cons_of_mem _ hmem, hnacc, ?_, ?_⟩
        · show (n :: t).foldl acceptStep (none, none) = _
          rw [List.foldl_cons, hstep]
          exact heq
        · intro n' hn' hn'acc pm' pn' hpm' hpn'
          rcases List.mem_cons.mp hn' with h1 | h1
          · subst h1; exact absurd hn'acc hacc
          · exact hmin n' h1 hn'acc pm' pn' hpm' hpn'

/-- Witness for `scanner_longest_match_and_min_priority`, at a concrete
two-state DFA over the input `"ab"` (both `"a"` and `"ab"` are accepted,
the scanner must report length 2) and a concrete two-rule subset. -/
theorem scanner_longest_match_and_min_priority_witness :
    ((0:Nat) < 2 ∧
      acceptsAt ⟨0, fun s c => if s = 0 ∧ c = 'a' then some 1
          else if s = 1 ∧ c = 'b' then some 2 else none,
        fun s => if s = 1 then some "A" else if s = 2 then some "AB" else none⟩
        ['a', 'b'] 0 2 "AB") ∧
    (∃ nm ∈ [NfaSt.mk true (some "K") (some 0), NfaSt.mk true (some "I") (some 1)],
      nm.is_accept ∧
      dfaAcceptFold [NfaSt.mk true (some "K") (some 0), NfaSt.mk true (some "I") (some 1)] =
        (nm.priority, nm.token_type) ∧
      ∀ n ∈ [NfaSt.mk true (some "K") (some 0), NfaSt.mk true (some "I") (some 1)],
        n.is_accept → ∀ pm pn, nm.priority = some pm → n.priority = some pn → pm ≤ pn) := by
  constructor
  · have h := (scanner_longest_match_and_min_priority.1
      ⟨0, fun s c => if s = 0 ∧ c = 'a' then some 1
          else if s = 1 ∧ c = 'b' then some 2 else none,
        fun s => if s = 1 then some "A" else if s = 2 then some "AB" else none⟩
      ['a', 'b'] 0 3 (by decide)).1 "AB" 2 (by decide)
    exact ⟨h.1, h.2.1⟩
  · exact (scanner_longest_match_and_min_priority.2
      [NfaSt.mk true (some "K") (some 0), NfaSt.mk true (some "I") (some 1)]
      (by decide)).2 ⟨_, List.mem_cons_self _ _, rfl⟩

/-- Witness for `tokenize_ends_in_single_eof`: a DFA with no accepting
states on the one-character input `"a"`. -/
theorem tokenize_ends_in_single_eof_witness :
    ((∃ e, tokenize ⟨0, fun _ _ => none, fun _ => none⟩ ['a'] = .error e ∧ e.ch ∈ ['a']) ∨
      (∃ ts line column,
        tokenize ⟨0, fun _ _ => none, fun _ => none⟩ ['a'] =
          .ok (ts ++ [⟨"EOF", "", line, column⟩]) ∧ ∀ tk ∈ ts, tk.type ≠ "EOF")) ∧
    tokenize ⟨0, fun _ _ => none, fun _ => none⟩ [] = .ok [⟨"EOF", "", 1, 1⟩] :=
  tokenize_ends_in_single_eof ⟨0, fun _ _ => none, fun _ => none⟩ ['a']
    (fun _ h => Option.noConfusion h)

/-- C1: the TAC actually emitted for the scenario-4 while program.  The
translation action of a nonterminal runs only after all its children are
parsed, so the condition and body code precede whatever the action emits;
moreover the `'WHILE' 'LPAREN' C 'RPAREN' S` production is captured by
the earlier keyword-call branch of `_apply_translation_scheme`
(`len ≥ 4`, quoted head, `'LPAREN'`, nonterminal), which emits
`param t1; call write, 1` — the while branch is unreachable, no label is
ever allocated, and the emitted TAC bears no resemblance to the ordering
the claim describes (`L1:` before the condition code, the body between
the branch and `goto L1`). -/
theorem while_tac_emission_order_bug :
    scenario4TAC = ["i = 0", "t1 = i < 3", "param i", "call write, 1",
      "t2 = i + 1", "i = t2", "param t1", "call write, 1"] ∧
    "L1:" ∉ scenario4TAC ∧
    scenario4TAC ≠ ["i = 0", "L1:", "t1 = i < 3", "t2 = not t1",
      "if t2 goto L2", "param i", "call write, 1", "t3 = i + 1", "i = t3",
      "goto L1", "L2:"] := by
  refine ⟨by decide, by decide, by decide⟩

/-- C2: compiling `x = y ;` (an undeclared use of `y`) through the
`_cmd_compile` pipeline reports success (exit code 0) and writes the TAC
output `x = y`; the accumulated semantic-error list is empty — the
identifier-use check is shadowed by the unit-production branch and
`create_parser_from_spec` is called without metadata, and `_cmd_compile`
never consults `has_semantic_errors` — so a source with an
undeclared-variable use does yield a TAC output file. -/
theorem cli_compile_ignores_semantic_errors :
    cliUndeclaredUseResult = (0, some "x = y", []) := by decide

/-- C4 counterexample: parsing `x = 1 ;` with explicit declarations
required records an undeclared-variable error for `x` — the *target* of
the assignment — contradicting the claim that assigning to a name absent
from the table does not add a semantic error. -/
theorem assignment_target_recorded_counterexample :
    assignTargetErrors.map (fun e => e.name) = ["x"] := by decide

/-- C6 counterexample: transforming the grammar `A -> A | 'b'` exactly as
`build_analysis_sets` does leaves the production `A_TAIL -> A_TAIL`
(the recursive alternative `A -> A` has an empty remainder, so the fresh
tail nonterminal is itself directly left-recursive), so the transformed
grammar does contain a production of the shape `X -> X …`. -/
theorem transform_leaves_left_recursion_counterexample :
    hasDirectLeftRecursion (transform_grammar selfRecGrammar) = true ∧
    gget (transform_grammar selfRecGrammar) "A_TAIL" = [[], ["A_TAIL"]] := by
  refine ⟨by decide, by decide⟩

/-- C6 amended: the invariant does hold of the transformed while-language
grammar (no production `A -> A …`, no two alternatives of a nonterminal
sharing a nonempty common prefix), though not of every input grammar. -/
theorem transform_invariant_on_while_grammar :
    hasDirectLeftRecursion (transform_grammar whileGrammar) = false ∧
    hasSharedPref (transform_grammar whileGrammar) = false := by
  refine ⟨by decide, by decide⟩

lemma findConflictInner_none (si : TermSet) :
    ∀ sels, findConflictInner si sels = none →
      ∀ sj ∈ sels, tsInter si sj = [] := by
  intro sels
  induction sels with
  | nil => intro _ sj hsj; cases hsj
  | cons s0 rest ih =>
    intro h sj hsj
    simp only [findConflictInner] at h
    by_cases he : (tsInter si s0).isEmpty
    · rw [if_pos he] at h
      rcases List.mem_cons.mp hsj with h1 | h1
      · subst h1; exact List.isEmpty_iff.mp he
      · cases hrec : findConflictInner si rest with
        | none => exact ih hrec sj h1
        | some p =>
          rw [hrec] at h
          obtain ⟨j, c⟩ := p
          exact Option.noConfusion h
    · rw [if_neg he] at h
      cases h

lemma findConflictInner_some (si : TermSet) :
    ∀ sels j c, findConflictInner si sels = some (j, c) →
      ∃ sj, sels[j]? = some sj ∧ c = tsInter si sj ∧ c ≠ [] := by
  intro sels
  induction sels with
  | nil => intro j c h; cases h
  | cons s0 rest ih =>
    intro j c h
    simp only [findConflictInner] at h
    by_cases he : (tsInter si s0).isEmpty
    · rw [if_pos he] at h
      cases hrec : findConflictInner si rest with
      | none => rw [hrec] at h; cases h
      | some p =>
        obtain ⟨j', c'⟩ := p
        rw [hrec] at h
        simp only [Option.some.injEq, Prod.mk.injEq] at h
        obtain ⟨hj, hc⟩ := h
        obtain ⟨sj, hsj, hceq, hcne⟩ := ih j' c' hrec
        subst hj; subst hc
        exact ⟨sj, by simpa using hsj, hceq, hcne⟩
    · rw [if_neg he] at h
      simp only [Option.some.injEq, Prod.mk.injEq] at h
      obtain ⟨hj, hc⟩ := h
      subst hj; subst hc
      exact ⟨s0, by simp, rfl, fun hn => he (by simp [hn])⟩

lemma findConflictOuter_none :
    ∀ sels, findConflictOuter sels = none →
      ∀ (i j : Nat) (si sj : TermSet), i < j → sels[i]? = some si →
        sels[j]? = some sj → tsInter si sj = [] := by
  intro sels
  induction sels with
  | nil => intro _ i j si sj _ hi _; cases hi
  | cons s0 rest ih =>
    intro h i j si sj hij hi hj
    simp only [findConflictOuter] at h
    cases hin : findConflictInner s0 rest with
    | some p =>
      obtain ⟨j', c⟩ := p
      rw [hin] at h
      exact Option.noConfusion h
    | none =>
      rw [hin] at h
      cases hrec : findConflictOuter rest with
      | some p =>
        obtain ⟨i', j', c⟩ := p
        rw [hrec] at h
        exact Option.noConfusion h
      | none =>
        cases i with
        | zero =>
          simp only [List.getElem?_cons_zero, Option.some.injEq] at hi
          subst hi
          cases j with
          | zero => omega
          | succ j' =>
            simp only [List.getElem?_cons_succ] at hj
            exact findConflictInner_none s0 rest hin sj (List.getElem?_mem hj)
        | succ i' =>
          cases j with
          | zero => omega
          | succ j' =>
            simp only [List.getElem?_cons_succ] at hi hj
            exact ih hrec i' j' si sj (by omega) hi hj

lemma findConflictOuter_some :
    ∀ sels i j c, findConflictOuter sels = some (i, j, c) →
      i < j ∧ ∃ si sj, sels[i]? = some si ∧ sels[j]? = some sj ∧
        c = tsInter si sj ∧ c ≠ [] := by
  intro sels
  induction sels with
  | nil => intro i j c h; cases h
  | cons s0 rest ih =>
    intro i j c h
    simp only [findConflictOuter] at h
    cases hin : findConflictInner s0 rest with
    | some p =>
      obtain ⟨j', c'⟩ := p
      rw [hin] at h
      simp only [Option.some.injEq, Prod.mk.injEq] at h
      obtain ⟨hi, hj, hc⟩ := h
      subst hi; subst hj; subst hc
      obtain ⟨sj, hsj, hceq, hcne⟩ := findConflictInner_some s0 rest j' c' hin
      exact ⟨by omega, s0, sj, by simp, by simpa using hsj, hceq, hcne⟩
    | none =>
      rw [hin] at h
      cases hrec : findConflictOuter rest with
      | none => rw [hrec] at h; cases h
      | some p =>
        obtain ⟨i', j', c'⟩ := p
        rw [hrec] at h
        simp only [Option.some.injEq, Prod.mk.injEq] at h
        obtain ⟨hi, hj, hc⟩ := h
        subst hi; subst hj; subst hc
        obtain ⟨hij, si, sj, hsi, hsj, hceq, hcne⟩ := ih i' j' c' hrec
        exact ⟨by omega, si, sj, by simpa using hsi, by simpa using hsj, hceq, hcne⟩

lemma check_ll1_conflicts_none (g : Grammar)
    (selects : List (String × List TermSet)) :
    ∀ nts, check_ll1_conflicts g selects nts = none →
      ∀ A ∈ nts, ∀ (i j : Nat) (si sj : TermSet), i < j →
        (sel_lookup selects A)[i]? = some si →
        (sel_lookup selects A)[j]? = some sj →
        1 < (gget g A).length →
        tsInter si sj = [] := by
  intro nts
  induction nts with
  | nil => intro _ A hA; cases hA
  | cons A0 rest ih =>
    intro h A hA i j si sj hij hi hj hlen
    simp only [check_ll1_conflicts] at h
    by_cases hskip : (gget g A0).length ≤ 1
    · rw [if_pos hskip] at h
      rcases List.mem_cons.mp hA with h1 | h1
      · subst h1; omega
      · exact ih h A h1 i j si sj hij hi hj hlen
    · rw [if_neg hskip] at h
      cases hout : findConflictOuter (sel_lookup selects A0) with
      | some p =>
        obtain ⟨i', j', c⟩ := p
        rw [hout] at h
        exact Option.noConfusion h
      | none =>
        rw [hout] at h
        rcases List.mem_cons.mp hA with h1 | h1
        · subst h1
          exact findConflictOuter_none _ hout i j si sj hij hi hj
        · exact ih h A h1 i j si sj hij hi hj hlen

lemma check_ll1_conflicts_some (g : Grammar)
    (selects : List (String × List TermSet)) :
    ∀ nts c, check_ll1_conflicts g selects nts = some c →
      c.nt ∈ nts ∧ 1 < (gget g c.nt).length ∧
      ∃ (i j : Nat) (si sj : TermSet), i < j ∧
        (sel_lookup selects c.nt)[i]? = some si ∧
        (sel_lookup selects c.nt)[j]? = some sj ∧
        c.prodI = (gget g c.nt).getD i [] ∧
        c.prodJ = (gget g c.nt).getD j [] ∧
        c.conflict = tsInter si sj ∧ c.conflict ≠ [] := by
  intro nts
  induction nts with
  | nil => intro c h; cases h
  | cons A0 rest ih =>
    intro c h
    simp only [check_ll1_conflicts] at h
    by_cases hskip : (gget g A0).length ≤ 1
    · rw [if_pos hskip] at h
      obtain ⟨hmem, hrest⟩ := ih c h
      exact ⟨List.mem_cons_of_mem A0 hmem, hrest⟩
    · rw [if_neg hskip] at h
      cases hout : findConflictOuter (sel_lookup selects A0) with
      | some p =>
        obtain ⟨i, j, cf⟩ := p
        rw [hout] at h
        simp only [Option.some.injEq] at h
        obtain ⟨hij, si, sj, hsi, hsj, hceq, hcne⟩ :=
          findConflictOuter_some _ i j cf hout
        subst h
        exact ⟨List.mem_cons_self _ _, (by omega : 1 < (gget g A0).length),
          i, j, si, sj, hij, hsi, hsj, rfl, rfl, hceq, hcne⟩
      | none =>
        rw [hout] at h
        obtain ⟨hmem, hrest⟩ := ih c h
        exact ⟨List.mem_cons_of_mem A0 hmem, hrest⟩

/-- C7: the LL(1) conflict check of `build_analysis_sets` — when the scan
passes, the SELECT sets of the alternatives of every nonterminal with at
least two of them are pairwise disjoint; when it raises, the diagnostic
names a nonterminal with at least two alternatives, two of its
productions (in order), and their nonempty SELECT intersection; and a
successful build implies the scan passed on the built parser's grammar,
SELECT sets and nonterminals (in the conflict case `build_analysis_sets`
returns the error and no parser state is produced). -/
theorem ll1_conflict_check_correct :
    (∀ (g : Grammar) (selects : List (String × List TermSet))
      (nts : List String),
      (check_ll1_conflicts g selects nts = none →
        ∀ A ∈ nts, ∀ (i j : Nat) (si sj : TermSet), i < j →
          (sel_lookup selects A)[i]? = some si →
          (sel_lookup selects A)[j]? = some sj →
          1 < (gget g A).length →
          tsInter si sj = []) ∧
      (∀ c, check_ll1_conflicts g selects nts = some c →
        c.nt ∈ nts ∧ 1 < (gget g c.nt).length ∧
        ∃ (i j : Nat) (si sj : TermSet), i < j ∧
          (sel_lookup selects c.nt)[i]? = some si ∧
          (sel_lookup selects c.nt)[j]? = some sj ∧
          c.prodI = (gget g c.nt).getD i [] ∧
          c.prodJ = (gget g c.nt).getD j [] ∧
          c.conflict = tsInter si sj ∧ c.conflict ≠ [])) ∧
    (∀ (g0 : Grammar) (start : String) (pg : PGen),
      build_analysis_sets g0 start = .ok pg →
      check_ll1_conflicts pg.grammar pg.select_sets pg.non_terminals = none ∧
      (∀ A ∈ pg.non_terminals, ∀ (i j : Nat) (si sj : TermSet), i < j →
        (sel_lookup pg.select_sets A)[i]? = some si →
        (sel_lookup pg.select_sets A)[j]? = some sj →
        1 < (gget pg.grammar A).length →
        tsInter si sj = [])) := by
  refine ⟨fun g selects nts =>
    ⟨check_ll1_conflicts_none g selects nts, check_ll1_conflicts_some g selects nts⟩, ?_⟩
  intro g0 start pg hok
  simp only [build_analysis_sets] at hok
  split at hok
  · cases hok
  · rename_i first hfirst
    split at hok
    · cases hok
    · rename_i follow hfollow
      split at hok
      · cases hok
      · rename_i hnone
        simp only [Except.ok.injEq] at hok
        subst hok
        refine ⟨hnone, ?_⟩
        exact fun A hA i j si sj hij hi hj hlen =>
          check_ll1_conflicts_none _ _ _ hnone A hA i j si sj hij hi hj hlen

lemma emit_state (conf : PConf) (st : PState) (c : String) :
    (emit conf st c).symbol_table = st.symbol_table ∧
    (emit conf st c).semantic_errors = st.semantic_errors := by
  unfold emit; split <;> exact ⟨rfl, rfl⟩

lemma symInsert_state (st : PState) (v : String) :
    (∀ n ∈ st.symbol_table, n ∈ (symInsert st v).symbol_table) ∧
    (symInsert st v).semantic_errors = st.semantic_errors ∧
    v ∈ (symInsert st v).symbol_table := by
  unfold symInsert
  split
  · rename_i hc
    exact ⟨fun n h => h, rfl, List.mem_of_elem_eq_true hc⟩
  · exact ⟨fun n h => List.mem_append_left _ h, rfl,
      List.mem_append_right _ (List.mem_cons_self _ _)⟩

lemma check_variable_defined_state (conf : PConf) (st : PState)
    (name : String) (tok : Option Token) :
    (check_variable_defined conf st name tok).1.symbol_table = st.symbol_table ∧
    (∀ e ∈ (check_variable_defined conf st name tok).1.semantic_errors,
      e ∈ st.semantic_errors ∨ (e.name = name ∧ name ∉ st.symbol_table)) := by
  unfold check_variable_defined
  split
  · exact ⟨rfl, fun e he => Or.inl he⟩
  · split
    · exact ⟨rfl, fun e he => Or.inl he⟩
    · rename_i _ hc
      refine ⟨rfl, ?_⟩
      intro e he
      simp only [List.mem_append, List.mem_singleton] at he
      rcases he with h1 | h1
      · exact Or.inl h1
      · subst h1
        exact Or.inr ⟨rfl, fun hmem => hc (List.elem_eq_true_of_mem hmem)⟩

/-- The expression helpers never touch the symbol table or the semantic
error list: they only allocate temporaries and emit code. -/
lemma process_add_op_go_state (conf : PConf)
    (rec : ASTNode → Option String → PState → Option String × PState)
    (hrec : ∀ n v st, (rec n v st).2.symbol_table = st.symbol_table ∧
      (rec n v st).2.semantic_errors = st.semantic_errors)
    (node : ASTNode) (v : Option String) (st : PState) :
    (process_add_op_go conf rec node v st).2.symbol_table = st.symbol_table ∧
    (process_add_op_go conf rec node v st).2.semantic_errors =
      st.semantic_errors := by
  unfold process_add_op_go
  repeat' first | split | dsimp only
  all_goals first
    | exact ⟨rfl, rfl⟩
    | exact ⟨(emit_state conf _ _).1, (emit_state conf _ _).2⟩
    | exact ⟨((hrec _ _ _).1).trans (emit_state conf _ _).1,
        ((hrec _ _ _).2).trans (emit_state conf _ _).2⟩

lemma process_mul_op_go_state (conf : PConf)
    (rec : ASTNode → Option String → PState → Option String × PState)
    (hrec : ∀ n v st, (rec n v st).2.symbol_table = st.symbol_table ∧
      (rec n v st).2.semantic_errors = st.semantic_errors)
    (node : ASTNode) (v : Option String) (st : PState) :
    (process_mul_op_go conf rec node v st).2.symbol_table = st.symbol_table ∧
    (process_mul_op_go conf rec node v st).2.semantic_errors =
      st.semantic_errors := by
  unfold process_mul_op_go
  repeat' first | split | dsimp only
  all_goals first
    | exact ⟨rfl, rfl⟩
    | exact ⟨(emit_state conf _ _).1, (emit_state conf _ _).2⟩
    | exact ⟨((hrec _ _ _).1).trans (emit_state conf _ _).1,
        ((hrec _ _ _).2).trans (emit_state conf _ _).2⟩

lemma process_add_op_state (conf : PConf) :
    ∀ fuel node v st,
      (process_add_op conf fuel node v st).2.symbol_table = st.symbol_table ∧
      (process_add_op conf fuel node v st).2.semantic_errors =
        st.semantic_errors := by
  intro fuel
  induction fuel with
  | zero => intro node v st; exact ⟨rfl, rfl⟩
  | succ f ih =>
    intro node v st
    exact process_add_op_go_state conf (process_add_op conf f) ih node v st

lemma process_mul_op_state (conf : PConf) :
    ∀ fuel node v st,
      (process_mul_op conf fuel node v st).2.symbol_table = st.symbol_table ∧
      (process_mul_op conf fuel node v st).2.semantic_errors =
        st.semantic_errors := by
  intro fuel
  induction fuel with
  | zero => intro node v st; exact ⟨rfl, rfl⟩
  | succ f ih =>
    intro node v st
    exact process_mul_op_go_state conf (process_mul_op conf f) ih node v st

lemma process_expr_tail_go_state (conf : PConf)
    (recAdd recSelf : ASTNode → Option String → PState → Option String × PState)
    (hadd : ∀ n v st, (recAdd n v st).2.symbol_table = st.symbol_table ∧
      (recAdd n v st).2.semantic_errors = st.semantic_errors)
    (hself : ∀ n v st, (recSelf n v st).2.symbol_table = st.symbol_table ∧
      (recSelf n v st).2.semantic_errors = st.semantic_errors)
    (node : ASTNode) (v : Option String) (st : PState) :
    (process_expr_tail_go conf recAdd recSelf node v st).2.symbol_table =
      st.symbol_table ∧
    (process_expr_tail_go conf recAdd recSelf node v st).2.semantic_errors =
      st.semantic_errors := by
  unfold process_expr_tail_go
  repeat' first | split | dsimp only
  all_goals first
    | exact ⟨rfl, rfl⟩
    | exact ⟨(hadd _ _ _).1, (hadd _ _ _).2⟩
    | exact ⟨(emit_state conf _ _).1, (emit_state conf _ _).2⟩
    | exact ⟨((hself _ _ _).1).trans (emit_state conf _ _).1,
        ((hself _ _ _).2).trans (emit_state conf _ _).2⟩

lemma process_term_tail_go_state (conf : PConf)
    (recMul recSelf : ASTNode → Option String → PState → Option String × PState)
    (hmul : ∀ n v st, (recMul n v st).2.symbol_table = st.symbol_table ∧
      (recMul n v st).2.semantic_errors = st.semantic_errors)
    (hself : ∀ n v st, (recSelf n v st).2.symbol_table = st.symbol_table ∧
      (recSelf n v st).2.semantic_errors = st.semantic_errors)
    (node : ASTNode) (v : Option String) (st : PState) :
    (process_term_tail_go conf recMul recSelf node v st).2.symbol_table =
      st.symbol_table ∧
    (process_term_tail_go conf recMul recSelf node v st).2.semantic_errors =
      st.semantic_errors := by
  unfold process_term_tail_go
  repeat' first | split | dsimp only
  all_goals first
    | exact ⟨rfl, rfl⟩
    | exact ⟨(hmul _ _ _).1, (hmul _ _ _).2⟩
    | exact ⟨(emit_state conf _ _).1, (emit_state conf _ _).2⟩
    | exact ⟨((hself _ _ _).1).trans (emit_state conf _ _).1,
        ((hself _ _ _).2).trans (emit_state conf _ _).2⟩

lemma process_expr_tail_state (conf : PConf) :
    ∀ fuel node v st,
      (process_expr_tail conf fuel node v st).2.symbol_table = st.symbol_table ∧
      (process_expr_tail conf fuel node v st).2.semantic_errors =
        st.semantic_errors := by
  intro fuel
  induction fuel with
  | zero => intro node v st; exact ⟨rfl, rfl⟩
  | succ f ih =>
    intro node v st
    exact process_expr_tail_go_state conf (process_add_op conf f)
      (process_expr_tail conf f) (process_add_op_state conf f) ih node v st

lemma process_term_tail_state (conf : PConf) :
    ∀ fuel node v st,
      (process_term_tail conf fuel node v st).2.symbol_table = st.symbol_table ∧
      (process_term_tail conf fuel node v st).2.semantic_errors =
        st.semantic_errors := by
  intro fuel
  induction fuel with
  | zero => intro node v st; exact ⟨rfl, rfl⟩
  | succ f ih =>
    intro node v st
    exact process_term_tail_go_state conf (process_mul_op conf f)
      (process_term_tail conf f) (process_mul_op_state conf f) ih node v st

/-- The declaration-list walk only inserts into the symbol table; it
never deletes entries and never records errors. -/
lemma collect_ids_go_state (rec : ASTNode → PState → PState)
    (hrec : ∀ n st, (∀ x ∈ st.symbol_table, x ∈ (rec n st).symbol_table) ∧
      (rec n st).semantic_errors = st.semantic_errors)
    (node : ASTNode) (st : PState) :
    (∀ x ∈ st.symbol_table, x ∈ (collect_ids_go rec node st).symbol_table) ∧
    (collect_ids_go rec node st).semantic_errors = st.semantic_errors := by
  unfold collect_ids_go
  repeat' first | split | dsimp only
  all_goals first
    | exact ⟨fun x h => h, rfl⟩
    | exact ⟨(symInsert_state _ _).1, (symInsert_state _ _).2.1⟩
    | exact ⟨(hrec _ _).1, (hrec _ _).2⟩
    | exact ⟨fun x h => (hrec _ _).1 x ((symInsert_state _ _).1 x h),
        ((hrec _ _).2).trans (symInsert_state _ _).2.1⟩

lemma collect_ids_state :
    ∀ fuel node st,
      (∀ n ∈ st.symbol_table,
        n ∈ (collect_ids_from_tail fuel node st).symbol_table) ∧
      (collect_ids_from_tail fuel node st).semantic_errors =
        st.semantic_errors := by
  intro fuel
  induction fuel with
  | zero => intro node st; exact ⟨fun n h => h, rfl⟩
  | succ f ih =>
    intro node st
    exact collect_ids_go_state (collect_ids_from_tail f) ih node st

lemma stOk_refl (st : PState) : StOk st st :=
  ⟨fun _ h => h, fun _ he => Or.inl he⟩

lemma stOk_trans {st st1 st2 : PState} (hA : StOk st st1) (hB : StOk st1 st2) :
    StOk st st2 := by
  refine ⟨fun n hn => hB.1 n (hA.1 n hn), fun e he => ?_⟩
  rcases hB.2 e he with h | h
  · exact hA.2 e h
  · exact Or.inr (fun hmem => h (hA.1 _ hmem))

/-- Transport `StOk` along a step that changes neither the symbol table
nor the error list. -/
lemma stOk_of_eqs {st st1 R : PState} (h : StOk st st1)
    (e1 : R.symbol_table = st1.symbol_table)
    (e2 : R.semantic_errors = st1.semantic_errors) : StOk st R := by
  refine ⟨fun n hn => ?_, fun e he => ?_⟩
  · rw [e1]; exact h.1 n hn
  · rw [e2] at he; exact h.2 e he

lemma stOk_emit_any {conf : PConf} {c : String} {st st1 : PState}
    (h : StOk st st1) : StOk st (emit conf st1 c) :=
  stOk_of_eqs h (emit_state conf st1 c).1 (emit_state conf st1 c).2

lemma stOk_newtemp_any {st st1 : PState} (h : StOk st st1) :
    StOk st (new_temp st1).2 := h

lemma stOk_newlabel_any {st st1 : PState} (h : StOk st st1) :
    StOk st (new_label st1).2 := h

lemma stOk_symInsert_any {v : String} {st st1 : PState} (h : StOk st st1) :
    StOk st (symInsert st1 v) := by
  refine ⟨fun n hn => (symInsert_state st1 v).1 n (h.1 n hn), fun e he => ?_⟩
  rw [(symInsert_state st1 v).2.1] at he
  exact h.2 e he

lemma stOk_cvd_any {conf : PConf} {name : String} {tok : Option Token}
    {st st1 : PState} (h : StOk st st1) :
    StOk st (check_variable_defined conf st1 name tok).1 := by
  have hc := check_variable_defined_state conf st1 name tok
  refine ⟨fun n hn => ?_, fun e he => ?_⟩
  · rw [hc.1]; exact h.1 n hn
  · rcases hc.2 e he with h1 | h1
    · exact h.2 e h1
    · exact Or.inr (fun hmem => h1.2 (h1.1 ▸ h.1 _ hmem))

lemma stOk_pet_any {conf : PConf} {fuel : Nat} {n : ASTNode}
    {v : Option String} {st st1 : PState} (h : StOk st st1) :
    StOk st (process_expr_tail conf fuel n v st1).2 :=
  stOk_of_eqs h (process_expr_tail_state conf fuel n v st1).1
    (process_expr_tail_state conf fuel n v st1).2

lemma stOk_ptt_any {conf : PConf} {fuel : Nat} {n : ASTNode}
    {v : Option String} {st st1 : PState} (h : StOk st st1) :
    StOk st (process_term_tail conf fuel n v st1).2 :=
  stOk_of_eqs h (process_term_tail_state conf fuel n v st1).1
    (process_term_tail_state conf fuel n v st1).2

lemma stOk_collect_any {fuel : Nat} {n : ASTNode} {st st1 : PState}
    (h : StOk st st1) : StOk st (collect_ids_from_tail fuel n st1) := by
  refine ⟨fun x hx => (collect_ids_state fuel n st1).1 x (h.1 x hx),
    fun e he => ?_⟩
  rw [(collect_ids_state fuel n st1).2] at he
  exact h.2 e he

lemma stOk_ats_use (conf : PConf) (children : List ASTNode) (st : PState) :
    StOk st (ats_use conf children st).2 := by
  unfold ats_use
  repeat' first | split | dsimp only
  all_goals first
    | exact stOk_refl _
    | exact stOk_cvd_any (stOk_refl _)

lemma stOk_ats_assign (conf : PConf) (children : List ASTNode) (st : PState) :
    StOk st (ats_assign conf children st).2 := by
  unfold ats_assign
  repeat' first | split | dsimp only
  all_goals
    repeat' first
      | exact stOk_refl _
      | apply stOk_emit_any
      | apply stOk_symInsert_any
      | apply stOk_cvd_any

lemma stOk_ats_output (conf : PConf) (production : List String)
    (children : List ASTNode) (st : PState) :
    StOk st (ats_output conf production children st).2 := by
  unfold ats_output
  repeat' first | split | dsimp only
  all_goals
    repeat' first
      | exact stOk_refl _
      | apply stOk_emit_any

lemma stOk_ats_read (conf : PConf) (children : List ASTNode) (st : PState) :
    StOk st (ats_read conf children st).2 := by
  unfold ats_read
  repeat' first | split | dsimp only
  all_goals
    repeat' first
      | exact stOk_refl _
      | apply stOk_emit_any
      | apply stOk_newtemp_any

lemma stOk_ats_while (conf : PConf) (children : List ASTNode) (st : PState) :
    StOk st (ats_while conf children st).2 := by
  unfold ats_while
  repeat' first | split | dsimp only
  all_goals
    repeat' first
      | exact stOk_refl _
      | apply stOk_emit_any
      | apply stOk_newtemp_any
      | apply stOk_newlabel_any

lemma stOk_ats_cond (conf : PConf) (children : List ASTNode) (st : PState) :
    StOk st (ats_cond conf children st).2 := by
  unfold ats_cond
  repeat' first | split | dsimp only
  all_goals
    repeat' first
      | exact stOk_refl _
      | apply stOk_emit_any
      | apply stOk_newtemp_any
      | apply stOk_newlabel_any

lemma stOk_ats_binop (conf : PConf) (production : List String)
    (children : List ASTNode) (st : PState) :
    StOk st (ats_binop conf production children st).2 := by
  unfold ats_binop
  repeat' first | split | dsimp only
  all_goals
    repeat' first
      | exact stOk_refl _
      | apply stOk_emit_any
      | apply stOk_newtemp_any

lemma stOk_ats_decl (conf : PConf) (fuel : Nat) (children : List ASTNode)
    (st : PState) : StOk st (ats_decl conf fuel children st).2 := by
  unfold ats_decl
  repeat' first | split | dsimp only
  all_goals
    repeat' first
      | exact stOk_refl _
      | apply stOk_collect_any
      | apply stOk_symInsert_any

/-- Every branch of the translation scheme only grows the symbol table,
and every error it records names an identifier absent from the incoming
symbol table. -/
lemma ats_stOk (conf : PConf) (fuel : Nat) (production : List String)
    (children : List ASTNode) (st : PState) :
    StOk st (apply_translation_scheme conf fuel production children st).2 := by
  unfold apply_translation_scheme
  try dsimp only
  by_cases h1 : production.length = 1
  · rw [if_pos h1]; exact stOk_refl st
  rw [if_neg h1]
  by_cases h2 : production.length = 2 ∧
      ¬ strStartsWith (production.getD 0 "") "\x27" = true ∧
      ¬ strStartsWith (production.getD 1 "") "\x27" = true
  · rw [if_pos h2]; exact stOk_pet_any (stOk_refl st)
  rw [if_neg h2, if_neg h2]
  by_cases h4 : production.length = 1 ∧ production.getD 0 "" = "\x27NUM\x27"
  · rw [if_pos h4]; exact stOk_refl st
  rw [if_neg h4]
  by_cases h5 : production.length = 1 ∧ production.getD 0 "" = "\x27ID\x27"
  · rw [if_pos h5]; exact stOk_ats_use conf children st
  rw [if_neg h5]
  by_cases h6 : production.length = 3 ∧
      production.getD 0 "" = "\x27LPAREN\x27" ∧
      production.getD 2 "" = "\x27RPAREN\x27"
  · rw [if_pos h6]; exact stOk_refl st
  rw [if_neg h6]
  by_cases h7 : production.length ≥ 3 ∧
      production.getD 0 "" = "\x27ID\x27" ∧
      production.getD 1 "" = "\x27ASSIGN\x27"
  · rw [if_pos h7]; exact stOk_ats_assign conf children st
  rw [if_neg h7]
  by_cases h8 : production.length ≥ 4 ∧
      strStartsWith (production.getD 0 "") "\x27" = true ∧
      production.getD 1 "" = "\x27LPAREN\x27" ∧
      ¬ strStartsWith (production.getD 2 "") "\x27" = true
  · rw [if_pos h8]; exact stOk_ats_output conf production children st
  rw [if_neg h8]
  by_cases h9 : production.length ≥ 2 ∧
      production.getD 0 "" = "\x27READ\x27" ∧
      production.getD 1 "" = "\x27ID\x27"
  · rw [if_pos h9]; exact stOk_ats_read conf children st
  rw [if_neg h9]
  by_cases h10 : production.length ≥ 5 ∧
      production.getD 0 "" = "\x27WHILE\x27" ∧
      production.getD 1 "" = "\x27LPAREN\x27"
  · rw [if_pos h10]; exact stOk_ats_while conf children st
  rw [if_neg h10]
  by_cases h11 : production.length ≥ 5 ∧
      production.getD 0 "" = "\x27IF\x27" ∧
      production.getD 1 "" = "\x27LPAREN\x27"
  · rw [if_pos h11]; exact stOk_ats_cond conf children st
  rw [if_neg h11]
  by_cases h12 : production.length ≥ 3 ∧
      ¬ strStartsWith (production.getD 0 "") "\x27" = true ∧
      strStartsWith (production.getD 1 "") "\x27" = true ∧
      ¬ strStartsWith (production.getD 2 "") "\x27" = true
  · rw [if_pos h12]; exact stOk_ats_binop conf production children st
  rw [if_neg h12]
  by_cases h13 : production.length = 1 ∧
      strStartsWith (production.getD 0 "") "\x27" = true
  · rw [if_pos h13]
    split
    · exact stOk_refl st
    · exact stOk_refl st
  rw [if_neg h13]
  by_cases h14 : production.length ≥ 2 ∧
      production.getD 0 "" = "\x27ID\x27" ∧
      ¬ strStartsWith (production.getD 1 "") "\x27" = true
  · rw [if_pos h14]; exact stOk_ats_decl conf fuel children st
  rw [if_neg h14]
  exact stOk_refl st

lemma matchTok_state {st : PState} {t : String} {tk : Token} {st2 : PState}
    (h : matchTok st t = .ok (tk, st2)) :
    st2.symbol_table = st.symbol_table ∧
    st2.semantic_errors = st.semantic_errors := by
  unfold matchTok at h
  dsimp only at h
  split at h
  · injection h with h1
    injection h1 with _ hb
    rw [← hb]
    exact ⟨rfl, rfl⟩
  · exact Except.noConfusion h

/-- One step of `parse_symbol` keeps the invariant, assuming the
recursive calls do. -/
lemma parseSyms_go_stOk (env : ParseEnv) (conf : PConf)
    (rec : List String → PState → Except ParseErr (List ASTNode × PState))
    (hrec : ∀ syms st r, rec syms st = .ok r → StOk st r.2)
    (fuel : Nat) (symbol : String) (rest : List String) (st : PState)
    (r : List ASTNode × PState)
    (h : parseSyms_go env conf rec fuel symbol rest st = .ok r) :
    StOk st r.2 := by
  obtain ⟨nodes0, stF⟩ := r
  unfold parseSyms_go at h
  dsimp only at h
  split at h
  · exact Except.noConfusion h
  · rename_i node st1 hone
    split at h
    · exact Except.noConfusion h
    · rename_i nodes st2 hrest
      injection h with h1
      injection h1 with _ hb
      rw [← hb]
      have h2 : StOk st1 st2 := hrec rest st1 (nodes, st2) hrest
      have h1ok : StOk st st1 := by
        split at hone
        · split at hone
          · exact Except.noConfusion hone
          · rename_i tk st' hm
            injection hone with he
            injection he with _ hb2
            rw [← hb2]
            exact stOk_of_eqs (stOk_refl st) (matchTok_state hm).1
              (matchTok_state hm).2
        · split at hone
          · exact Except.noConfusion hone
          · split at hone
            · exact Except.noConfusion hone
            · rename_i production _
              split at hone
              · injection hone with he
                injection he with _ hb2
                rw [← hb2]
                exact stOk_refl st
              · split at hone
                · exact Except.noConfusion hone
                · rename_i children st' hkids
                  split at hone
                  · injection hone with he
                    injection he with _ hb2
                    rw [← hb2]
                    exact stOk_trans (hrec production st (children, st') hkids)
                      (ats_stOk conf fuel production children st')
                  · injection hone with he
                    injection he with _ hb2
                    rw [← hb2]
                    exact hrec production st (children, st') hkids
      exact stOk_trans h1ok h2

/-- An `ok` run of the parser only grows the symbol table, and every
error it records names an identifier that was absent from the symbol
table when the run started. -/
lemma parseSyms_stOk (env : ParseEnv) (conf : PConf) :
    ∀ fuel syms st r, parseSyms env conf fuel syms st = .ok r →
      StOk st r.2 := by
  intro fuel
  induction fuel with
  | zero => intro syms st r h; exact Except.noConfusion h
  | succ f ih =>
    intro syms st r h
    cases syms with
    | nil =>
      obtain ⟨nodes0, stF⟩ := r
      have h2 : (Except.ok ([], st) :
          Except ParseErr (List ASTNode × PState)) = .ok (nodes0, stF) := h
      injection h2 with h1
      injection h1 with _ hb
      rw [← hb]
      exact stOk_refl st
    | cons s rest =>
      exact parseSyms_go_stOk env conf (parseSyms env conf f) ih f s rest st r h

/-- With the variable check enabled, `check_variable_defined` on a name
absent from the symbol table appends exactly one error naming it (and
leaves the table unchanged). -/
lemma cvd_absent_appends (conf : PConf) (st : PState) (name : String)
    (tok : Option Token)
    (hchk : conf.enable_variable_check = true)
    (habs : st.symbol_table.contains name = false) :
    ∃ e, (check_variable_defined conf st name tok).1.semantic_errors =
      st.semantic_errors ++ [e] ∧ e.name = name := by
  unfold check_variable_defined
  rw [if_neg (by simp [hchk]), if_neg (by simp only [habs]; decide)]
  exact ⟨_, rfl, rfl⟩

/-- On the production `'ID' 'ASSIGN' Expr 'SEMI'` the translation scheme
takes the assignment branch (all the preceding branch guards are closed
and false). -/
lemma ats_assign_eq (conf : PConf) (fuel : Nat) (children : List ASTNode)
    (st : PState) :
    apply_translation_scheme conf fuel assignProd children st =
      ats_assign conf children st := rfl

/-- On `'ID' IdListTail` the translation scheme takes the
declaration-list branch. -/
lemma ats_decl_eq (conf : PConf) (fuel : Nat) (children : List ASTNode)
    (st : PState) :
    apply_translation_scheme conf fuel declProd children st =
      ats_decl conf fuel children st := rfl

/-- On the unit production `'ID'` the translation scheme takes the very
first (pass-through) branch: identifier uses are never semantically
checked. -/
lemma ats_use_shadowed_eq (conf : PConf) (fuel : Nat)
    (children : List ASTNode) (st : PState) :
    apply_translation_scheme conf fuel useProd children st =
      ((children.getD 0 default).synth, st) := rfl

/-- Assignment to a name absent from the symbol table, with explicit
declarations required: exactly one error naming the target is appended,
and the target is inserted into the symbol table. -/
lemma ats_assign_absent (conf : PConf) (children : List ASTNode)
    (st : PState) (v : String)
    (hreq : conf.requires_explicit_declaration = true)
    (hchk : conf.enable_variable_check = true)
    (hv : strIsEmpty v = false)
    (hsy : (children.getD 0 default).synth = some v)
    (habs : st.symbol_table.contains v = false) :
    v ∈ (ats_assign conf children st).2.symbol_table ∧
    ∃ e, (ats_assign conf children st).2.semantic_errors =
      st.semantic_errors ++ [e] ∧ e.name = v := by
  unfold ats_assign
  dsimp only
  rw [hsy]
  dsimp only
  rw [if_pos (by simp [hv])]
  obtain ⟨e, he, hname⟩ :=
    cvd_absent_appends conf st v (children.getD 0 default).token hchk habs
  split
  · rw [if_pos (by simp only [habs]; decide)]
    refine ⟨?_, e, ?_, hname⟩
    · rw [(emit_state conf _ _).1]
      exact (symInsert_state _ v).2.2
    · rw [(emit_state conf _ _).2, (symInsert_state _ v).2.1, he]
  · rw [if_pos (by simp only [habs]; decide)]
    refine ⟨(symInsert_state _ v).2.2, e, ?_, hname⟩
    rw [(symInsert_state _ v).2.1, he]

/-- Assignment to a name already in the symbol table: no check, no
insertion, no error. -/
lemma ats_assign_present (conf : PConf) (children : List ASTNode)
    (st : PState) (v : String)
    (hv : strIsEmpty v = false)
    (hsy : (children.getD 0 default).synth = some v)
    (hmem : st.symbol_table.contains v = true) :
    (ats_assign conf children st).2.symbol_table = st.symbol_table ∧
    (ats_assign conf children st).2.semantic_errors = st.semantic_errors := by
  unfold ats_assign
  dsimp only
  rw [hsy]
  dsimp only
  rw [if_pos (by simp [hv])]
  split
  · exact ⟨(emit_state conf _ _).1, (emit_state conf _ _).2⟩
  · exact ⟨rfl, rfl⟩

/-- The declaration-list branch records no semantic error. -/
lemma ats_decl_errors (conf : PConf) (fuel : Nat) (children : List ASTNode)
    (st : PState) :
    (ats_decl conf fuel children st).2.semantic_errors =
      st.semantic_errors := by
  unfold ats_decl
  repeat' first | split | dsimp only
  all_goals first
    | rfl
    | exact (collect_ids_state _ _ _).2
    | exact (symInsert_state _ _).2.1
    | exact ((collect_ids_state _ _ _).2).trans ((symInsert_state _ _).2.1)

/-- Witness for `ll1_conflict_check_correct`: the while-language grammar
builds successfully, so its conflict scan passed. -/
theorem ll1_conflict_check_correct_witness :
    (match build_analysis_sets whileGrammar "Program" with
      | .ok pg =>
        check_ll1_conflicts pg.grammar pg.select_sets pg.non_terminals = none
      | .error _ => False) := by
  have hs : (match build_analysis_sets whileGrammar "Program" with
      | .ok _ => true
      | .error _ => false) = true := by decide
  cases hb : build_analysis_sets whileGrammar "Program" with
  | ok pg => exact (ll1_conflict_check_correct.2 whileGrammar "Program" pg hb).1
  | error e => rw [hb] at hs; cases hs

lemma mem_insertByDist (x y : String × Nat) :
    ∀ l, y ∈ insertByDist x l ↔ y = x ∨ y ∈ l := by
  intro l
  induction l with
  | nil => simp [insertByDist]
  | cons a as ih =>
    by_cases h : x.2 ≤ a.2
    · simp [insertByDist, h]
    · simp only [insertByDist, if_neg h, List.mem_cons, ih]
      tauto

lemma mem_sortByDist (y : String × Nat) :
    ∀ l, y ∈ sortByDist l ↔ y ∈ l := by
  intro l
  induction l with
  | nil => simp [sortByDist]
  | cons a as ih =>
    simp only [sortByDist, mem_insertByDist, List.mem_cons, ih]

lemma insertByDist_ne_nil (x : String × Nat) (l : List (String × Nat)) :
    insertByDist x l ≠ [] := by
  cases l with
  | nil => simp [insertByDist]
  | cons a as =>
    by_cases h : x.2 ≤ a.2 <;> simp [insertByDist, h]

lemma sortByDist_eq_nil (l : List (String × Nat)) :
    sortByDist l = [] ↔ l = [] := by
  cases l with
  | nil => simp [sortByDist]
  | cons a as =>
    simp only [sortByDist]
    exact ⟨fun h => absurd h (insertByDist_ne_nil _ _), fun h => List.noConfusion h⟩

/-- The head of the stable distance sort has minimal distance. -/
lemma sortByDist_head_min :
    ∀ (l : List (String × Nat)) (h : String × Nat) (t : List (String × Nat)),
      sortByDist l = h :: t → ∀ x ∈ l, h.2 ≤ x.2 := by
  intro l
  induction l with
  | nil => intro h t hs; cases hs
  | cons a as ih =>
    intro h t hs x hx
    simp only [sortByDist] at hs
    cases hsa : sortByDist as with
    | nil =>
      rw [hsa] at hs
      simp only [insertByDist] at hs
      injection hs with h1 h2
      rcases List.mem_cons.mp hx with h3 | h3
      · rw [← h1, h3]
      · rw [← mem_sortByDist x as, hsa] at h3; cases h3
    | cons b bs =>
      rw [hsa] at hs
      by_cases hab : a.2 ≤ b.2
      · simp only [insertByDist, if_pos hab] at hs
        injection hs with h1 h2
        rcases List.mem_cons.mp hx with h3 | h3
        · rw [← h1, h3]
        · have := ih b bs hsa x h3
          rw [← h1]
          omega
      · simp only [insertByDist, if_neg hab] at hs
        injection hs with h1 h2
        rcases List.mem_cons.mp hx with h3 | h3
        · subst h3
          rw [← h1]
          omega
        · have := ih b bs hsa x h3
          rw [← h1]
          omega

/-- C9: when the semantic checker offers a suggestion it is a declared
name at minimal case-insensitive Levenshtein distance from the offending
name, and a suggestion exists iff some declared name is within distance
2; when there is none (and names are declared), the recorded error lists
all declared names, sorted. -/
theorem suggestion_is_minimal_levenshtein (u : String) (defined : List String) :
    (∀ v, suggest_variable_fix u defined = some v →
      v ∈ defined ∧ levenshtein_distance (pyLower u) (pyLower v) ≤ 2 ∧
      ∀ w ∈ defined,
        levenshtein_distance (pyLower u) (pyLower v) ≤
          levenshtein_distance (pyLower u) (pyLower w)) ∧
    (suggest_variable_fix u defined = none ↔
      ∀ w ∈ defined, 2 < levenshtein_distance (pyLower u) (pyLower w)) ∧
    (∀ (conf : PConf) (st : PState) (tok : Option Token),
      conf.enable_variable_check = true →
      st.symbol_table.contains u = false →
      ∃ e, (check_variable_defined conf st u tok).1.semantic_errors =
        st.semantic_errors ++ [e] ∧ e.name = u ∧
        e.suggestion = suggest_variable_fix u st.symbol_table ∧
        (e.suggestion = none → st.symbol_table ≠ [] →
          e.listed = pySorted st.symbol_table)) := by
  have memCand : ∀ v d, (v, d) ∈ (defined.filterMap (fun w =>
      let dw := levenshtein_distance (pyLower u) (pyLower w)
      if dw ≤ 2 then some (w, dw) else none)) ↔
      v ∈ defined ∧ d = levenshtein_distance (pyLower u) (pyLower v) ∧ d ≤ 2 := by
    intro v d
    rw [List.mem_filterMap]
    constructor
    · rintro ⟨w, hw, hf⟩
      by_cases hd : levenshtein_distance (pyLower u) (pyLower w) ≤ 2
      · simp only [if_pos hd, Option.some.injEq, Prod.mk.injEq] at hf
        obtain ⟨h1, h2⟩ := hf
        subst h1; subst h2
        exact ⟨hw, rfl, hd⟩
      · simp only [if_neg hd] at hf
        exact Option.noConfusion hf
    · rintro ⟨hv, hd, hle⟩
      subst hd
      exact ⟨v, hv, by simp [hle]⟩
  refine ⟨?_, ?_, ?_⟩
  · intro v hv
    simp only [suggest_variable_fix, find_similar_variables] at hv
    cases hs : sortByDist (defined.filterMap (fun w =>
        let dw := levenshtein_distance (pyLower u) (pyLower w)
        if dw ≤ 2 then some (w, dw) else none)) with
    | nil => rw [hs] at hv; cases hv
    | cons hd tl =>
      rw [hs] at hv
      obtain ⟨v0, d0⟩ := hd
      simp only [Option.some.injEq] at hv
      have hmem : (v0, d0) ∈ defined.filterMap _ :=
        (mem_sortByDist _ _).mp (by rw [hs]; exact List.mem_cons_self _ _)
      obtain ⟨hvdef, hdeq, hdle⟩ := (memCand v0 d0).mp hmem
      rw [← hv]
      refine ⟨hvdef, hdeq ▸ hdle, ?_⟩
      intro w hw
      by_cases hwle : levenshtein_distance (pyLower u) (pyLower w) ≤ 2
      · have hwmem : (w, levenshtein_distance (pyLower u) (pyLower w)) ∈
            defined.filterMap _ := (memCand w _).mpr ⟨hw, rfl, hwle⟩
        have := sortByDist_head_min _ _ _ hs _ hwmem
        simp only at this
        omega
      · omega
  · simp only [suggest_variable_fix, find_similar_variables]
    cases hs : sortByDist (defined.filterMap (fun w =>
        let dw := levenshtein_distance (pyLower u) (pyLower w)
        if dw ≤ 2 then some (w, dw) else none)) with
    | nil =>
      simp only []
      constructor
      · intro _ w hw
        by_contra hcon
        push_neg at hcon
        have : (w, levenshtein_distance (pyLower u) (pyLower w)) ∈
            defined.filterMap _ := (memCand w _).mpr ⟨hw, rfl, hcon⟩
        rw [← mem_sortByDist _ _, hs] at this
        cases this
      · intro _; trivial
    | cons hd tl =>
      obtain ⟨v0, d0⟩ := hd
      simp only []
      constructor
      · intro h; cases h
      · intro hall
        exfalso
        have hmem : (v0, d0) ∈ defined.filterMap _ :=
          (mem_sortByDist _ _).mp (hs ▸ List.mem_cons_self _ _)
        obtain ⟨hvdef, hdeq, hdle⟩ := (memCand v0 d0).mp hmem
        have := hall v0 hvdef
        omega
  · intro conf st tok hen hmem
    refine ⟨⟨match tok with | some t => t.line | none => 0,
      match tok with | some t => t.column | none => 0,
      u, suggest_variable_fix u st.symbol_table,
      match suggest_variable_fix u st.symbol_table with
      | some _ => []
      | none => if st.symbol_table.isEmpty then [] else pySorted st.symbol_table⟩,
      ?_, rfl, rfl, ?_⟩
    · simp only [check_variable_defined, hen, hmem]
      simp
    · intro hnone hne
      simp only at hnone
      simp only [hnone]
      rw [if_neg (by simpa using hne)]

/-- Witness for `suggestion_is_minimal_levenshtein`: the undefined name
`cont` against the declared name `count` (distance 1). -/
theorem suggestion_is_minimal_levenshtein_witness :
    ("count" ∈ ["count"] ∧
      levenshtein_distance (pyLower "cont") (pyLower "count") ≤ 2 ∧
      ∀ w ∈ ["count"],
        levenshtein_distance (pyLower "cont") (pyLower "count") ≤
          levenshtein_distance (pyLower "cont") (pyLower w)) ∧
    (∃ e, (check_variable_defined ⟨true, true, true⟩
        { initPState with symbol_table := ["count"] } "cont" none).1.semantic_errors =
      ({ initPState with symbol_table := ["count"] } : PState).semantic_errors ++ [e] ∧
      e.name = "cont" ∧
      e.suggestion = suggest_variable_fix "cont" ["count"] ∧
      (e.suggestion = none → (["count"] : List String) ≠ [] →
        e.listed = pySorted ["count"])) :=
  ⟨(suggestion_is_minimal_levenshtein "cont" ["count"]).1 "count" (by decide),
   (suggestion_is_minimal_levenshtein "cont" ["count"]).2.2
     ⟨true, true, true⟩ { initPState with symbol_table := ["count"] } none rfl (by decide)⟩

/-- C8: `parse` first runs `reset_code_generation` and installs the token
list, so its result does not depend on the mutable state left by earlier
compiles: two runs over the same tokens with the same configuration and
analysis sets give identical results (in particular identical code
buffers), and the reset clears the buffer, both counters, the symbol
table and the semantic-error list. -/
theorem parse_deterministic_after_reset :
    (∀ (env : ParseEnv) (conf : PConf) (start : String) (fuel : Nat)
      (tokens : List Token) (s1 s2 : PState),
      parse env conf start fuel s1 tokens = parse env conf start fuel s2 tokens) ∧
    (∀ s : PState, (reset_code_generation s).code_buffer = [] ∧
      (reset_code_generation s).temp_counter = 0 ∧
      (reset_code_generation s).label_counter = 0 ∧
      (reset_code_generation s).symbol_table = [] ∧
      (reset_code_generation s).semantic_errors = []) := by
  constructor
  · intro env conf start fuel tokens s1 s2
    rfl
  · intro s
    exact ⟨rfl, rfl, rfl, rfl, rfl⟩

/-- **C4 (amended).** Where the semantic check actually fires: the unit
production `'ID'` (an identifier *use*, e.g. `Factor -> 'ID'`) is
captured by the leading pass-through branch of the translation scheme,
so uses are never checked and never record an error; the declaration
production `'ID' Tail` records no error either; but an assignment whose
target is absent from the symbol table, with explicit declarations
required, records exactly one undeclared-variable error naming the
*target* — contrary to the spec, which exempts assignment targets and
charges identifier uses. -/
theorem identifier_check_sites (conf : PConf) (fuel : Nat)
    (children : List ASTNode) (st : PState) (v : String)
    (hreq : conf.requires_explicit_declaration = true)
    (hchk : conf.enable_variable_check = true)
    (hv : strIsEmpty v = false)
    (hsy : (children.getD 0 default).synth = some v)
    (habs : st.symbol_table.contains v = false) :
    apply_translation_scheme conf fuel useProd children st =
      ((children.getD 0 default).synth, st) ∧
    (apply_translation_scheme conf fuel declProd children
      st).2.semantic_errors = st.semantic_errors ∧
    ∃ e, (apply_translation_scheme conf fuel assignProd children
        st).2.semantic_errors = st.semantic_errors ++ [e] ∧ e.name = v :=
  ⟨ats_use_shadowed_eq conf fuel children st,
   by rw [ats_decl_eq]; exact ats_decl_errors conf fuel children st,
   by
     rw [ats_assign_eq]
     exact (ats_assign_absent conf children st v hreq hchk hv hsy habs).2⟩

/-- Witness for `identifier_check_sites`: the assignment `x = …` from an
empty symbol table records one error naming `x`. -/
theorem identifier_check_sites_witness :
    ∃ e, (apply_translation_scheme pl0Conf 0 assignProd
        [ASTNode.node "ID" [] (some ⟨"ID", "x", 1, 1⟩) (some "x")]
        initPState).2.semantic_errors =
      initPState.semantic_errors ++ [e] ∧ e.name = "x" :=
  (identifier_check_sites pl0Conf 0
    [ASTNode.node "ID" [] (some ⟨"ID", "x", 1, 1⟩) (some "x")]
    initPState "x" rfl rfl (by decide) rfl (by decide)).2.2

/-- **C10.** An assignment whose target is absent from the symbol table
records exactly one semantic error (with explicit declarations and the
variable check enabled) and then inserts the target, an assignment whose
target is present records none, and during any successful parser run
every freshly recorded error names an identifier absent from the symbol
table at the start of the run — so once a name is in the table, no later
step of the same compile records an undeclared-variable error for it. -/
theorem assignment_records_once_then_silent (conf : PConf) (fuel : Nat)
    (children : List ASTNode) (st : PState) (v : String)
    (hreq : conf.requires_explicit_declaration = true)
    (hchk : conf.enable_variable_check = true)
    (hv : strIsEmpty v = false)
    (hsy : (children.getD 0 default).synth = some v) :
    (st.symbol_table.contains v = false →
      v ∈ (apply_translation_scheme conf fuel assignProd children
          st).2.symbol_table ∧
      ∃ e, (apply_translation_scheme conf fuel assignProd children
          st).2.semantic_errors = st.semantic_errors ++ [e] ∧ e.name = v) ∧
    (st.symbol_table.contains v = true →
      (apply_translation_scheme conf fuel assignProd children
        st).2.symbol_table = st.symbol_table ∧
      (apply_translation_scheme conf fuel assignProd children
        st).2.semantic_errors = st.semantic_errors) ∧
    (∀ env conf2 fuel2 syms st1 r, v ∈ st1.symbol_table →
      parseSyms env conf2 fuel2 syms st1 = .ok r →
      ∀ e ∈ r.2.semantic_errors, e.name = v →
        e ∈ st1.semantic_errors) := by
  refine ⟨?_, ?_, ?_⟩
  · intro habs
    rw [ats_assign_eq]
    exact ats_assign_absent conf children st v hreq hchk hv hsy habs
  · intro hmem
    rw [ats_assign_eq]
    exact ats_assign_present conf children st v hv hsy hmem
  · intro env conf2 fuel2 syms st1 r hvmem hok e he hname
    rcases (parseSyms_stOk env conf2 fuel2 syms st1 r hok).2 e he with h | h
    · exact h
    · exact absurd (hname.symm ▸ hvmem) h

/-- Witness for `assignment_records_once_then_silent`: instantiated at
the assignment `x = …` from an empty symbol table. -/
theorem assignment_records_once_then_silent_witness :
    "x" ∈ (apply_translation_scheme pl0Conf 0 assignProd
        [ASTNode.node "ID" [] (some ⟨"ID", "x", 1, 1⟩) (some "x")]
        initPState).2.symbol_table ∧
    ∃ e, (apply_translation_scheme pl0Conf 0 assignProd
        [ASTNode.node "ID" [] (some ⟨"ID", "x", 1, 1⟩) (some "x")]
        initPState).2.semantic_errors =
      initPState.semantic_errors ++ [e] ∧ e.name = "x" :=
  (assignment_records_once_then_silent pl0Conf 0
    [ASTNode.node "ID" [] (some ⟨"ID", "x", 1, 1⟩) (some "x")]
    initPState "x" rfl rfl (by decide) rfl).1 (by decide)

end CompilerGen
